import Mathlib

/-!
Shallow embedding of `DataRefineAI.py` (missing-value repair engine) and
verification of its specification.  Numeric cell values are modelled as exact
rationals, absent values (pandas `NaN`) as `none`, and each point where the
Python code could raise an exception is modelled with `Except String`.
-/

/-- A numeric column: cells in row-position order, `none` marking an absent value
(pandas `NaN`).  Positions coincide with the default `RangeIndex` labels that a
`DataFrame` loaded by `pd.read_csv` carries, so label and positional slicing
agree. -/
abbrev NumCol := List (Option ℚ)

/-- Provenance record built by `calculate_interpolation` (the Python dict literal
at lines 65-73 of `DataRefineAI.py`); fields appear in the dict's key order. -/
structure InterpRecord where
  missing_index : Nat
  left_value : ℚ
  right_value : ℚ
  left_index : Nat
  right_index : Nat
  interpolated_value : ℚ
  calculation : String
deriving DecidableEq, Repr

/-- Rounding of a rational to the nearest integer, halves to even.  This models
Python's built-in `round` (banker's rounding). -/
def roundHalfEven (q : ℚ) : ℤ :=
  if q - ⌊q⌋ < 1/2 then ⌊q⌋
  else if (1 : ℚ)/2 < q - ⌊q⌋ then ⌊q⌋ + 1
  else if ⌊q⌋ % 2 = 0 then ⌊q⌋ else ⌊q⌋ + 1

/-- Model of Python `round(x, 2)`: round to two decimal digits. -/
def round2 (q : ℚ) : ℚ := (roundHalfEven (q * 100) : ℚ) / 100

/-- Decimal rendering of a rational number, modelling Python `str()` applied to a
float: at least one digit after the decimal point (`str(10.0)` is `"10.0"`).
Rationals whose denominator divides no small power of ten are rendered as exact
fractions (there the Python float would print a binary approximation; no claim
depends on that case). -/
def fmtQ (q : ℚ) : String :=
  match (List.range 50).find? (fun k => 10 ^ k % q.den == 0) with
  | some k0 =>
    let k := max k0 1
    let m := q.num.natAbs * 10 ^ k / q.den
    let ds := Nat.repr m
    let ds := if ds.length < k + 1 then
        String.mk (List.replicate (k + 1 - ds.length) '0') ++ ds
      else ds
    (if q < 0 then "-" else "") ++ ds.dropRight k ++ "." ++ ds.takeRight k
  | none => Int.repr q.num ++ "/" ++ Nat.repr q.den

/-- Positions `0 .. index-1` of the column that hold a present value: the indices
where `series.notna()[:index]` is `True` in `calculate_interpolation`. -/
def beforeIdxs (s : NumCol) (index : Nat) : List Nat :=
  (List.range index).filter (fun j => (s.getD j none).isSome)

/-- Positions `index .. len-1` of the column that hold a present value: the
indices where `series.notna()[index:]` is `True` in `calculate_interpolation`. -/
def afterIdxs (s : NumCol) (index : Nat) : List Nat :=
  (List.range' index (s.length - index)).filter (fun j => (s.getD j none).isSome)

/-- Embedding of `DataRefineAI.calculate_interpolation` (lines 49-74).  The
fallible operations of the Python body (negative/zero indexing into an empty
selection, key lookup, division) are modelled as `Except` error branches. -/
def calculate_interpolation (s : NumCol) (index : Nat) :
    Except String (Option InterpRecord) :=
  if !(beforeIdxs s index).isEmpty && !(afterIdxs s index).isEmpty then
    match (beforeIdxs s index).getLast? with
    | none => .error "IndexError"
    | some left_idx =>
      match (afterIdxs s index).head? with
      | none => .error "IndexError"
      | some right_idx =>
        match s.getD left_idx none with
        | none => .error "KeyError"
        | some left_val =>
          match s.getD right_idx none with
          | none => .error "KeyError"
          | some right_val =>
            if ((right_idx : ℚ) - (left_idx : ℚ)) = 0 then .error "ZeroDivisionError"
            else
              .ok (some {
                missing_index := index
                left_value := left_val
                right_value := right_val
                left_index := left_idx
                right_index := right_idx
                interpolated_value := round2 (left_val + (right_val - left_val) *
                  (((index : ℚ) - (left_idx : ℚ)) / ((right_idx : ℚ) - (left_idx : ℚ))))
                calculation := "Value_" ++ fmtQ left_val ++ " + (" ++ fmtQ right_val ++
                  " - " ++ fmtQ left_val ++ ") × (" ++ Nat.repr index ++ " - " ++
                  Nat.repr left_idx ++ ")/(" ++ Nat.repr right_idx ++ " - " ++
                  Nat.repr left_idx ++ ")" })
  else .ok none

/-- Pure description of the value `calculate_interpolation` returns when it does
not raise (proved below: it never raises). -/
def ciRecord (s : NumCol) (index : Nat) : Option InterpRecord :=
  match (beforeIdxs s index).getLast?, (afterIdxs s index).head? with
  | some left_idx, some right_idx =>
    let left_val := (s.getD left_idx none).getD 0
    let right_val := (s.getD right_idx none).getD 0
    some {
      missing_index := index
      left_value := left_val
      right_value := right_val
      left_index := left_idx
      right_index := right_idx
      interpolated_value := round2 (left_val + (right_val - left_val) *
        (((index : ℚ) - (left_idx : ℚ)) / ((right_idx : ℚ) - (left_idx : ℚ))))
      calculation := "Value_" ++ fmtQ left_val ++ " + (" ++ fmtQ right_val ++
        " - " ++ fmtQ left_val ++ ") × (" ++ Nat.repr index ++ " - " ++
        Nat.repr left_idx ++ ")/(" ++ Nat.repr right_idx ++ " - " ++
        Nat.repr left_idx ++ ")" }
  | _, _ => none

/-- Positions of the absent values of a column, ascending: the Python
`series[series.isna()].index`. -/
def missingIndices (s : NumCol) : List Nat :=
  (List.range s.length).filter (fun i => (s.getD i none).isNone)

/-- Model of the pandas library call `series.interpolate(method='linear')` with
default parameters, per the pandas documentation: an interior gap is filled by
positional linear interpolation between its nearest present neighbours; a gap
with no present value before it is left absent (default
`limit_direction='forward'`); a gap with a present value before it but none
after it is filled with the nearest earlier present value. -/
def pandasLinearFill (s : NumCol) : NumCol :=
  (List.range s.length).map fun i =>
    match s.getD i none with
    | some v => some v
    | none =>
      match (beforeIdxs s i).getLast? with
      | none => none
      | some left_idx =>
        let left_val := (s.getD left_idx none).getD 0
        match (afterIdxs s i).head? with
        | none => some left_val
        | some right_idx =>
          let right_val := (s.getD right_idx none).getD 0
          some (left_val + (right_val - left_val) *
            (((i : ℚ) - (left_idx : ℚ)) / ((right_idx : ℚ) - (left_idx : ℚ))))

/-- The record-collecting loop of `interpolate_numeric` (lines 84-87): one
`calculate_interpolation` call per missing index, keeping the non-`None`
results in order. -/
def collectDetails (s : NumCol) (acc : List InterpRecord) :
    List Nat → Except String (List InterpRecord)
  | [] => .ok acc
  | idx :: rest =>
    match calculate_interpolation s idx with
    | .error e => .error e
    | .ok (some rec) => collectDetails s (acc ++ [rec]) rest
    | .ok none => collectDetails s acc rest

/-- Embedding of `DataRefineAI.interpolate_numeric` (lines 76-92). -/
def interpolate_numeric (s : NumCol) :
    Except String (NumCol × List InterpRecord) :=
  match collectDetails s [] (missingIndices s) with
  | .error e => .error e
  | .ok details => .ok (pandasLinearFill s, details)

/-- Lexicographic comparison of character lists by code point, the order Python
uses on strings. -/
def charListLe : List Char → List Char → Bool
  | [], _ => true
  | _ :: _, [] => false
  | a :: as, b :: bs =>
    if a.toNat < b.toNat then true
    else if b.toNat < a.toNat then false
    else charListLe as bs

/-- String comparison by code-point lexicographic order (Python `<=`). -/
def strLeB (a b : String) : Bool := charListLe a.data b.data

/-- Insertion of a string into a `strLeB`-sorted list. -/
def insertSorted (x : String) : List String → List String
  | [] => [x]
  | y :: ys => if strLeB x y then x :: y :: ys else y :: insertSorted x ys

/-- Insertion sort by `strLeB`; used to model the sorted order in which pandas
`Series.mode` returns its result. -/
def sortStr (l : List String) : List String := l.foldr insertSorted []

/-- Model of the pandas library call `series.mode()` on a column of strings, per
the pandas documentation: the non-absent values of maximal frequency, in sorted
order. -/
def mode (s : List (Option String)) : List String :=
  sortStr ((s.reduceOption.dedup).filter
    (fun v => s.reduceOption.count v ==
      ((s.reduceOption.dedup).map (fun v => s.reduceOption.count v)).foldr max 0))

/-- Embedding of `DataRefineAI.fill_categorical` (lines 94-99): fill absent
entries with `mode()[0]` when the mode list is non-empty, otherwise with
`"Unknown"`. -/
def fill_categorical (s : List (Option String)) : List (Option String) :=
  match (mode s).head? with
  | some m => s.map (fun c => some (c.getD m))
  | none => s.map (fun c => some (c.getD "Unknown"))

/-- A table cell value: either a number or a string. -/
inductive Val where
  | num (q : ℚ)
  | str (s : String)
deriving DecidableEq, Repr

/-- A table cell, `none` marking an absent value. -/
abbrev Cell := Option Val

/-- A table column. -/
abbrev Column := List Cell

/-- A table: named columns in order, each a list of cells aligned by row
position (the `DataFrame`). -/
abbrev Table := List (String × Column)

/-- Embedding of `DataRefineAI.detect_data_types` (lines 37-47), per column
name. -/
def detect_data_types (column : String) : String :=
  if column = "age" then "numeric"
  else if column = "name" then "categorical"
  else "id"

/-- The Python `df[column].isna().sum()`. -/
def missingCount (c : Column) : Nat := (c.filter (fun x => x.isNone)).length

/-- Reading a column as numeric, as the numeric repair path does.  A present
string cell makes the pandas interpolation call raise `TypeError` (object
dtype), modelled as an error. -/
def asNumCol : Column → Except String NumCol
  | [] => .ok []
  | cell :: rest =>
    match cell with
    | none =>
      match asNumCol rest with
      | .error e => .error e
      | .ok t => .ok (none :: t)
    | some (Val.num q) =>
      match asNumCol rest with
      | .error e => .error e
      | .ok t => .ok (some q :: t)
    | some (Val.str _) => .error "TypeError"

/-- Reading a column as categorical, as the categorical repair path does.  A
present numeric cell would make the pandas `mode` sort raise `TypeError` on a
mixed column, modelled as an error. -/
def asStrCol : Column → Except String (List (Option String))
  | [] => .ok []
  | cell :: rest =>
    match cell with
    | none =>
      match asStrCol rest with
      | .error e => .error e
      | .ok t => .ok (none :: t)
    | some (Val.str v) =>
      match asStrCol rest with
      | .error e => .error e
      | .ok t => .ok (some v :: t)
    | some (Val.num _) => .error "TypeError"

/-- Writing a repaired numeric column back into the table. -/
def numColToColumn (s : NumCol) : Column := s.map (fun o => o.map Val.num)

/-- Writing a repaired categorical column back into the table. -/
def strColToColumn (s : List (Option String)) : Column :=
  s.map (fun o => o.map Val.str)

/-- The report dict assembled by `handle_missing_values` (lines 108-113);
interpolation details are tagged with their column name as in lines 123-128. -/
structure MissingReport where
  numeric_fields_missing : Nat
  categorical_fields_missing : Nat
  columns_with_missing : List String
  interpolation_details : List (String × InterpRecord)
deriving DecidableEq, Repr

/-- The initial, empty missing-data report. -/
def emptyMissingReport : MissingReport := ⟨0, 0, [], []⟩

/-- One iteration of the column loop of `handle_missing_values`
(lines 115-131). -/
def handleColumn (entry : String × Column) (report : MissingReport) :
    Except String ((String × Column) × MissingReport) :=
  let mc := missingCount entry.2
  if 0 < mc then
    let report1 := { report with
      columns_with_missing := report.columns_with_missing ++ [entry.1] }
    if detect_data_types entry.1 = "numeric" then
      match asNumCol entry.2 with
      | .error e => .error e
      | .ok nc =>
        match interpolate_numeric nc with
        | .error e => .error e
        | .ok (repaired, details) =>
          .ok ((entry.1, numColToColumn repaired),
            { report1 with
              numeric_fields_missing := report1.numeric_fields_missing + mc
              interpolation_details := report1.interpolation_details ++
                details.map (fun d => (entry.1, d)) })
    else if detect_data_types entry.1 = "categorical" then
      match asStrCol entry.2 with
      | .error e => .error e
      | .ok sc =>
        .ok ((entry.1, strColToColumn (fill_categorical sc)),
          { report1 with
            categorical_fields_missing := report1.categorical_fields_missing + mc })
    else .ok ((entry.1, entry.2), report1)
  else .ok ((entry.1, entry.2), report)

/-- The column loop of `handle_missing_values`: columns processed in table
order, the table rebuilt in place and the report accumulated. -/
def hmvGo (acc : Table) (report : MissingReport) :
    Table → Except String (Table × MissingReport)
  | [] => .ok (acc, report)
  | entry :: rest =>
    match handleColumn entry report with
    | .error e => .error e
    | .ok (e, report') => hmvGo (acc ++ [e]) report' rest

/-- Embedding of `DataRefineAI.handle_missing_values` (lines 105-133). -/
def handle_missing_values (df : Table) :
    Except String (Table × MissingReport) :=
  hmvGo [] emptyMissingReport df

/-- Reading one cell as a numeric value, `none` for anything that is not a
present number. -/
def cellToNum : Cell → Option ℚ
  | some (Val.num q) => some q
  | _ => none

/-- Reading one cell as a string value, `none` for anything that is not a
present string. -/
def cellToStr : Cell → Option String
  | some (Val.str v) => some v
  | _ => none

/-- Pure description of what `handle_missing_values` does to one column when it
does not raise. -/
def repairColumn (entry : String × Column) : String × Column :=
  if 0 < missingCount entry.2 then
    if detect_data_types entry.1 = "numeric" then
      (entry.1, numColToColumn (pandasLinearFill (entry.2.map cellToNum)))
    else if detect_data_types entry.1 = "categorical" then
      (entry.1, strColToColumn (fill_categorical (entry.2.map cellToStr)))
    else (entry.1, entry.2)
  else (entry.1, entry.2)

/-- Pure description of the interpolation details one column contributes to the
report when `handle_missing_values` does not raise. -/
def colDetails (entry : String × Column) : List (String × InterpRecord) :=
  if 0 < missingCount entry.2 then
    if detect_data_types entry.1 = "numeric" then
      ((missingIndices (entry.2.map cellToNum)).filterMap
        (ciRecord (entry.2.map cellToNum))).map (fun r => (entry.1, r))
    else []
  else []

/-- Pure description of the report after `handle_missing_values` has processed
one column without raising. -/
def hcReport (entry : String × Column) (r : MissingReport) : MissingReport :=
  if 0 < missingCount entry.2 then
    if detect_data_types entry.1 = "numeric" then
      { r with
        columns_with_missing := r.columns_with_missing ++ [entry.1]
        numeric_fields_missing := r.numeric_fields_missing + missingCount entry.2
        interpolation_details := r.interpolation_details ++ colDetails entry }
    else if detect_data_types entry.1 = "categorical" then
      { r with
        columns_with_missing := r.columns_with_missing ++ [entry.1]
        categorical_fields_missing :=
          r.categorical_fields_missing + missingCount entry.2 }
    else { r with columns_with_missing := r.columns_with_missing ++ [entry.1] }
  else r

/-- A gap at `i` with at least one present value strictly before it: such a gap
has a nearest left neighbour. -/
def hasLeft (s : NumCol) (i : Nat) : Bool :=
  (List.range i).any (fun j => (s.getD j none).isSome)

/-- A gap at `i` with at least one present value strictly after it. -/
def hasRight (s : NumCol) (i : Nat) : Bool :=
  (List.range s.length).any (fun j => decide (i < j) && (s.getD j none).isSome)

/-- A gap strictly between two present values: the gaps the spec says receive an
`InterpolationRecord`. -/
def interiorGap (s : NumCol) (i : Nat) : Bool :=
  (s.getD i none).isNone && hasLeft s i && hasRight s i

/-- A column whose present cells all match its name-based classification; a
violating cell would make the pandas repair call raise on dtype. -/
def wellTypedCol (entry : String × Column) : Bool :=
  if detect_data_types entry.1 = "numeric" then
    entry.2.all (fun cell => match cell with
      | some (Val.str _) => false
      | _ => true)
  else if detect_data_types entry.1 = "categorical" then
    entry.2.all (fun cell => match cell with
      | some (Val.num _) => false
      | _ => true)
  else true

/-- A table all of whose columns are well typed. -/
def wellTyped (df : Table) : Bool := df.all wellTypedCol

theorem getD_some_lt {α : Type} {s : List (Option α)} {n : Nat} {v : α}
    (h : s.getD n none = some v) : n < s.length := by
  by_contra hn
  rw [List.getD_eq_default _ _ (by omega)] at h
  exact Option.noConfusion h

theorem getD_of_all_none {α : Type} {s : List (Option α)} (h : ∀ x ∈ s, x = none)
    (n : Nat) : s.getD n none = none := by
  rcases Nat.lt_or_ge n s.length with hn | hn
  · rw [List.getD_eq_getElem?_getD, List.getElem?_eq_getElem hn]
    exact h _ (List.getElem_mem hn)
  · exact List.getD_eq_default _ _ hn

theorem isSome_false_eq_none {α : Type} {o : Option α} (h : o.isSome = false) :
    o = none := by
  cases o with
  | none => rfl
  | some v => simp at h

theorem filter_range_getLast_eq {p : Nat → Bool} :
    ∀ {n L : Nat}, L < n → p L = true → (∀ j, L < j → j < n → p j = false) →
      ((List.range n).filter p).getLast? = some L := by
  intro n
  induction n with
  | zero => intro L h; omega
  | succ n ih =>
    intro L hLn hpL hmax
    rw [List.range_succ, List.filter_append]
    by_cases hLn' : L = n
    · subst hLn'
      have he : List.filter p [L] = [L] := by simp [hpL]
      rw [he, List.getLast?_concat]
    · have hn : p n = false := hmax n (by omega) (by omega)
      have he : List.filter p [n] = [] := by simp [hn]
      rw [he, List.append_nil]
      exact @ih L (by omega) hpL (fun j h1 h2 => hmax j h1 (by omega))

theorem filter_range_getLast_inv {p : Nat → Bool} :
    ∀ {n L : Nat}, ((List.range n).filter p).getLast? = some L →
      L < n ∧ p L = true ∧ ∀ j, L < j → j < n → p j = false := by
  intro n
  induction n with
  | zero => intro L h; simp [List.range_zero] at h
  | succ n ih =>
    intro L h
    rw [List.range_succ, List.filter_append] at h
    cases hn : p n with
    | true =>
      have he : List.filter p [n] = [n] := by simp [hn]
      rw [he, List.getLast?_concat] at h
      obtain rfl : n = L := Option.some.inj h
      exact ⟨by omega, hn, fun j h1 h2 => by omega⟩
    | false =>
      have he : List.filter p [n] = [] := by simp [hn]
      rw [he, List.append_nil] at h
      obtain ⟨h1, h2, h3⟩ := ih h
      refine ⟨by omega, h2, fun j hj1 hj2 => ?_⟩
      by_cases hj : j = n
      · exact hj ▸ hn
      · exact h3 j hj1 (by omega)

theorem filter_range'_head_eq {p : Nat → Bool} :
    ∀ {len a R : Nat}, a ≤ R → R < a + len → p R = true →
      (∀ j, a ≤ j → j < R → p j = false) →
      ((List.range' a len).filter p).head? = some R := by
  intro len
  induction len with
  | zero => intro a R h1 h2; omega
  | succ len ih =>
    intro a R h1 h2 hp hmin
    rw [List.range'_succ, List.filter_cons]
    by_cases haR : a = R
    · subst haR
      rw [if_pos hp]
      rfl
    · have hpa : p a = false := hmin a le_rfl (by omega)
      rw [if_neg (by simp [hpa])]
      exact @ih (a + 1) R (by omega) (by omega) hp (fun j hj1 hj2 => hmin j (by omega) hj2)

theorem filter_range'_head_inv {p : Nat → Bool} :
    ∀ {len a R : Nat}, ((List.range' a len).filter p).head? = some R →
      a ≤ R ∧ R < a + len ∧ p R = true ∧ ∀ j, a ≤ j → j < R → p j = false := by
  intro len
  induction len with
  | zero => intro a R h; simp [List.range'_zero] at h
  | succ len ih =>
    intro a R h
    rw [List.range'_succ, List.filter_cons] at h
    cases hpa : p a with
    | true =>
      rw [if_pos hpa] at h
      obtain rfl : a = R := Option.some.inj h
      exact ⟨le_rfl, by omega, hpa, fun j hj1 hj2 => by omega⟩
    | false =>
      rw [if_neg (by simp [hpa])] at h
      obtain ⟨h1, h2, h3, h4⟩ := ih h
      refine ⟨by omega, by omega, h3, fun j hj1 hj2 => ?_⟩
      by_cases hj : j = a
      · exact hj ▸ hpa
      · exact h4 j (by omega) hj2

theorem beforeIdxs_getLast_eq {s : NumCol} {i L : Nat} {v : ℚ} (hLi : L < i)
    (hv : s.getD L none = some v)
    (hmax : ∀ j, L < j → j < i → s.getD j none = none) :
    (beforeIdxs s i).getLast? = some L := by
  apply filter_range_getLast_eq hLi
  · rw [hv]; rfl
  · intro j h1 h2
    rw [hmax j h1 h2]; rfl

theorem beforeIdxs_getLast_inv {s : NumCol} {i L : Nat}
    (h : (beforeIdxs s i).getLast? = some L) :
    L < i ∧ (∃ v, s.getD L none = some v) ∧
      ∀ j, L < j → j < i → s.getD j none = none := by
  obtain ⟨h1, h2, h3⟩ := filter_range_getLast_inv h
  exact ⟨h1, Option.isSome_iff_exists.mp h2,
    fun j hj1 hj2 => isSome_false_eq_none (h3 j hj1 hj2)⟩

theorem afterIdxs_head_eq {s : NumCol} {i R : Nat} {v : ℚ}
    (hgap : s.getD i none = none) (hiR : i < R) (hv : s.getD R none = some v)
    (hmin : ∀ j, i < j → j < R → s.getD j none = none) :
    (afterIdxs s i).head? = some R := by
  have hR : R < s.length := getD_some_lt hv
  apply filter_range'_head_eq (by omega : i ≤ R) (by omega)
  · rw [hv]; rfl
  · intro j hj1 hj2
    rcases Nat.eq_or_lt_of_le hj1 with hj | hj
    · rw [← hj, hgap]; rfl
    · rw [hmin j hj hj2]; rfl

theorem afterIdxs_head_inv {s : NumCol} {i R : Nat}
    (h : (afterIdxs s i).head? = some R) :
    i ≤ R ∧ R < s.length ∧ (∃ v, s.getD R none = some v) ∧
      ∀ j, i ≤ j → j < R → s.getD j none = none := by
  obtain ⟨h1, h2, h3, h4⟩ := filter_range'_head_inv h
  have hlen : i ≤ s.length := by
    by_contra hc
    have h0 : s.length - i = 0 := by omega
    rw [afterIdxs, h0, List.range'_zero, List.filter_nil] at h
    simp at h
  exact ⟨h1, by omega, Option.isSome_iff_exists.mp h3,
    fun j hj1 hj2 => isSome_false_eq_none (h4 j hj1 hj2)⟩

theorem ci_eq_ok (s : NumCol) (i : Nat) :
    calculate_interpolation s i = .ok (ciRecord s i) := by
  unfold calculate_interpolation ciRecord
  cases hL : (beforeIdxs s i).getLast? with
  | none =>
    have hnil : beforeIdxs s i = [] := List.getLast?_eq_none_iff.mp hL
    simp [hnil]
  | some L =>
    cases hR : (afterIdxs s i).head? with
    | none =>
      have hnil : afterIdxs s i = [] := List.head?_eq_none_iff.mp hR
      simp [hnil]
    | some R =>
      have hbne : beforeIdxs s i ≠ [] := by intro hc; rw [hc] at hL; simp at hL
      have hane : afterIdxs s i ≠ [] := by intro hc; rw [hc] at hR; simp at hR
      obtain ⟨hLi, ⟨vL, hvL⟩, -⟩ := beforeIdxs_getLast_inv hL
      obtain ⟨hiR, -, ⟨vR, hvR⟩, -⟩ := afterIdxs_head_inv hR
      have hLR : ((R : ℚ) - (L : ℚ)) ≠ 0 := by
        have hlt : (L : ℚ) < (R : ℚ) := by exact_mod_cast (by omega : L < R)
        exact sub_ne_zero_of_ne (ne_of_gt hlt)
      rw [List.getD_eq_getElem?_getD] at hvL hvR
      simp [hbne, hane, hvL, hvR, hLR]

theorem collectDetails_eq (s : NumCol) :
    ∀ (l : List Nat) (acc : List InterpRecord),
      collectDetails s acc l = .ok (acc ++ l.filterMap (ciRecord s)) := by
  intro l
  induction l with
  | nil => intro acc; simp [collectDetails]
  | cons i rest ih =>
    intro acc
    rw [collectDetails, ci_eq_ok]
    cases h : ciRecord s i with
    | none =>
      rw [List.filterMap_cons_none h]
      exact ih acc
    | some rec =>
      rw [List.filterMap_cons_some h]
      show collectDetails s (acc ++ [rec]) rest =
        Except.ok (acc ++ rec :: List.filterMap (ciRecord s) rest)
      rw [ih (acc ++ [rec])]
      simp

theorem interpolate_numeric_eq (s : NumCol) :
    interpolate_numeric s =
      .ok (pandasLinearFill s, (missingIndices s).filterMap (ciRecord s)) := by
  rw [interpolate_numeric, collectDetails_eq]
  rfl

theorem hasLeft_iff {s : NumCol} {i : Nat} :
    hasLeft s i = true ↔ ∃ j, j < i ∧ (s.getD j none).isSome := by
  rw [hasLeft, List.any_eq_true]
  constructor
  · rintro ⟨j, hj, hp⟩
    exact ⟨j, List.mem_range.mp hj, hp⟩
  · rintro ⟨j, hj, hp⟩
    exact ⟨j, List.mem_range.mpr hj, hp⟩

theorem hasRight_iff {s : NumCol} {i : Nat} :
    hasRight s i = true ↔ ∃ j, i < j ∧ j < s.length ∧ (s.getD j none).isSome := by
  rw [hasRight, List.any_eq_true]
  constructor
  · rintro ⟨j, hj, hp⟩
    simp only [Bool.and_eq_true, decide_eq_true_eq] at hp
    exact ⟨j, hp.1, List.mem_range.mp hj, hp.2⟩
  · rintro ⟨j, h1, h2, hp⟩
    refine ⟨j, List.mem_range.mpr h2, ?_⟩
    simp only [Bool.and_eq_true, decide_eq_true_eq]
    exact ⟨h1, hp⟩

theorem beforeIdxs_ne_nil_iff {s : NumCol} {i : Nat} :
    beforeIdxs s i ≠ [] ↔ ∃ j, j < i ∧ (s.getD j none).isSome := by
  rw [beforeIdxs, Ne, List.filter_eq_nil_iff]
  push_neg
  constructor
  · rintro ⟨j, hj, hp⟩
    exact ⟨j, List.mem_range.mp hj, by simpa using hp⟩
  · rintro ⟨j, hj, hp⟩
    exact ⟨j, List.mem_range.mpr hj, by simpa using hp⟩

theorem afterIdxs_ne_nil_iff {s : NumCol} {i : Nat} :
    afterIdxs s i ≠ [] ↔ ∃ j, i ≤ j ∧ j < s.length ∧ (s.getD j none).isSome := by
  rw [afterIdxs, Ne, List.filter_eq_nil_iff]
  push_neg
  constructor
  · rintro ⟨j, hj, hp⟩
    rw [List.mem_range'] at hj
    obtain ⟨k, hk, rfl⟩ := hj
    exact ⟨i + 1 * k, by omega, by omega, by simpa using hp⟩
  · rintro ⟨j, hj1, hj2, hp⟩
    refine ⟨j, List.mem_range'.mpr ⟨j - i, by omega, by omega⟩, by simpa using hp⟩

theorem hasLeft_eq_ne_nil {s : NumCol} {i : Nat} :
    hasLeft s i = true ↔ beforeIdxs s i ≠ [] := by
  rw [hasLeft_iff, beforeIdxs_ne_nil_iff]

theorem hasRight_eq_ne_nil {s : NumCol} {i : Nat} (hgap : s.getD i none = none) :
    hasRight s i = true ↔ afterIdxs s i ≠ [] := by
  rw [hasRight_iff, afterIdxs_ne_nil_iff]
  constructor
  · rintro ⟨j, h1, h2, hp⟩
    exact ⟨j, by omega, h2, hp⟩
  · rintro ⟨j, h1, h2, hp⟩
    rcases Nat.eq_or_lt_of_le h1 with rfl | h
    · rw [hgap] at hp
      simp at hp
    · exact ⟨j, h, h2, hp⟩

theorem ciRecord_gap_cases {s : NumCol} {i : Nat} (hgap : s.getD i none = none) :
    (∃ rec, ciRecord s i = some rec ∧ rec.missing_index = i ∧
      interiorGap s i = true) ∨
      (ciRecord s i = none ∧ interiorGap s i = false) := by
  unfold ciRecord
  cases hL : (beforeIdxs s i).getLast? with
  | none =>
    right
    have hnil : beforeIdxs s i = [] := List.getLast?_eq_none_iff.mp hL
    have hhl : hasLeft s i = false := by
      rw [← Bool.not_eq_true, hasLeft_eq_ne_nil]
      simp [hnil]
    exact ⟨rfl, by simp [interiorGap, hhl]⟩
  | some L =>
    have hbne : beforeIdxs s i ≠ [] := by intro hc; rw [hc] at hL; simp at hL
    cases hR : (afterIdxs s i).head? with
    | none =>
      right
      have hnil : afterIdxs s i = [] := List.head?_eq_none_iff.mp hR
      have hhr : hasRight s i = false := by
        rw [← Bool.not_eq_true, hasRight_eq_ne_nil hgap]
        simp [hnil]
      exact ⟨rfl, by simp [interiorGap, hhr]⟩
    | some R =>
      left
      have hane : afterIdxs s i ≠ [] := by intro hc; rw [hc] at hR; simp at hR
      have hhl : hasLeft s i = true := hasLeft_eq_ne_nil.mpr hbne
      have hhr : hasRight s i = true := (hasRight_eq_ne_nil hgap).mpr hane
      refine ⟨_, rfl, rfl, ?_⟩
      simp only [interiorGap, hgap, hhl, hhr]
      rfl

theorem map_index_filterMap {q r : Nat → Bool} {f : Nat → Option InterpRecord}
    (hq : ∀ i, q i = true →
      (∃ rec, f i = some rec ∧ rec.missing_index = i ∧ r i = true) ∨
        (f i = none ∧ r i = false))
    (hq' : ∀ i, q i = false → r i = false) :
    ∀ l : List Nat,
      ((l.filter q).filterMap f).map (fun rec => rec.missing_index) = l.filter r := by
  intro l
  induction l with
  | nil => simp
  | cons i rest ih =>
    rw [List.filter_cons, List.filter_cons]
    cases hqi : q i with
    | false =>
      rw [if_neg (by simp), if_neg (by simp [hq' i hqi])]
      exact ih
    | true =>
      rw [if_pos rfl]
      rcases hq i hqi with ⟨rec, hf, hidx, hr⟩ | ⟨hf, hr⟩
      · rw [List.filterMap_cons_some hf, if_pos hr, List.map_cons, hidx, ih]
      · rw [List.filterMap_cons_none hf, if_neg (by simp [hr])]
        exact ih

theorem recsOf_indices (s : NumCol) :
    ((missingIndices s).filterMap (ciRecord s)).map (fun rec => rec.missing_index) =
      (List.range s.length).filter (fun i => interiorGap s i) := by
  rw [missingIndices]
  apply map_index_filterMap
  · intro i hq
    exact ciRecord_gap_cases (Option.isNone_iff_eq_none.mp hq)
  · intro i hq
    simp only [interiorGap, hq]
    rfl

theorem recsOf_interiorGap {s : NumCol} {rec : InterpRecord}
    (h : rec ∈ (missingIndices s).filterMap (ciRecord s)) :
    interiorGap s rec.missing_index = true := by
  have hm : rec.missing_index ∈
      ((missingIndices s).filterMap (ciRecord s)).map (fun r => r.missing_index) :=
    List.mem_map.mpr ⟨rec, h, rfl⟩
  rw [recsOf_indices] at hm
  exact (List.mem_filter.mp hm).2

theorem pandasLinearFill_length (s : NumCol) :
    (pandasLinearFill s).length = s.length := by
  rw [pandasLinearFill, List.length_map, List.length_range]

theorem pandasLinearFill_getD (s : NumCol) {i : Nat} (hi : i < s.length) :
    (pandasLinearFill s).getD i none =
      (match s.getD i none with
      | some v => some v
      | none =>
        match (beforeIdxs s i).getLast? with
        | none => none
        | some left_idx =>
          match (afterIdxs s i).head? with
          | none => some ((s.getD left_idx none).getD 0)
          | some right_idx =>
            some ((s.getD left_idx none).getD 0 +
              ((s.getD right_idx none).getD 0 - (s.getD left_idx none).getD 0) *
              (((i : ℚ) - (left_idx : ℚ)) / ((right_idx : ℚ) - (left_idx : ℚ))))) := by
  rw [pandasLinearFill, List.getD_eq_getElem?_getD, List.getElem?_map,
    List.getElem?_range hi]
  rfl

theorem getElem?_getD_of_all_none {α : Type} {s : List (Option α)}
    (h : ∀ x ∈ s, x = none) (n : Nat) : s[n]?.getD none = none := by
  rw [← List.getD_eq_getElem?_getD]
  exact getD_of_all_none h n

theorem beforeIdxs_all_absent {s : NumCol} (h : ∀ x ∈ s, x = none) (i : Nat) :
    beforeIdxs s i = [] :=
  List.filter_eq_nil_iff.mpr
    (fun j _ => by simp [getD_of_all_none h, getElem?_getD_of_all_none h])

theorem pandasLinearFill_all_absent {s : NumCol} (h : ∀ x ∈ s, x = none) :
    pandasLinearFill s = s := by
  apply List.ext_getElem?
  intro n
  rcases Nat.lt_or_ge n s.length with hn | hn
  · have h1 : (pandasLinearFill s)[n]? = some ((pandasLinearFill s).getD n none) := by
      rw [List.getD_eq_getElem?_getD, List.getElem?_eq_getElem
        (by rw [pandasLinearFill_length]; exact hn)]
      rfl
    rw [h1, pandasLinearFill_getD s hn, getD_of_all_none h,
      beforeIdxs_all_absent h, List.getLast?_nil, List.getElem?_eq_getElem hn]
    exact congrArg some (h _ (List.getElem_mem hn)).symm
  · rw [List.getElem?_eq_none (by rw [pandasLinearFill_length]; exact hn),
      List.getElem?_eq_none hn]

theorem interpolate_numeric_all_absent {s : NumCol} (h : ∀ x ∈ s, x = none) :
    interpolate_numeric s = .ok (s, []) := by
  rw [interpolate_numeric_eq, pandasLinearFill_all_absent h]
  have hnil : (missingIndices s).filterMap (ciRecord s) = [] := by
    apply List.filterMap_eq_nil_iff.mpr
    intro i _
    unfold ciRecord
    rw [beforeIdxs_all_absent h, List.getLast?_nil]
  rw [hnil]

theorem asNumCol_eq_ok (c : Column)
    (h : ∀ cell ∈ c, ∀ v, cell ≠ some (Val.str v)) :
    asNumCol c = .ok (c.map cellToNum) := by
  induction c with
  | nil => rfl
  | cons cell rest ih =>
    have hrest : asNumCol rest = .ok (rest.map cellToNum) :=
      ih (fun x hx v => h x (List.mem_cons_of_mem cell hx) v)
    cases cell with
    | none => rw [asNumCol, hrest]; rfl
    | some v =>
      cases v with
      | num q => rw [asNumCol, hrest]; rfl
      | str v => exact absurd rfl (h _ (List.mem_cons_self _ _) v)

theorem asNumCol_ok_imp {c : Column} {nc : NumCol} (h : asNumCol c = .ok nc) :
    nc = c.map cellToNum := by
  induction c generalizing nc with
  | nil =>
    rw [asNumCol] at h
    cases h
    rfl
  | cons cell rest ih =>
    cases cell with
    | none =>
      rw [asNumCol] at h
      cases hr : asNumCol rest with
      | error e => rw [hr] at h; cases h
      | ok t =>
        rw [hr] at h
        cases h
        rw [List.map_cons, ← ih hr]
        rfl
    | some v =>
      cases v with
      | num q =>
        rw [asNumCol] at h
        cases hr : asNumCol rest with
        | error e => rw [hr] at h; cases h
        | ok t =>
          rw [hr] at h
          cases h
          rw [List.map_cons, ← ih hr]
          rfl
      | str v => rw [asNumCol] at h; cases h

theorem asStrCol_eq_ok (c : Column)
    (h : ∀ cell ∈ c, ∀ q, cell ≠ some (Val.num q)) :
    asStrCol c = .ok (c.map cellToStr) := by
  induction c with
  | nil => rfl
  | cons cell rest ih =>
    have hrest : asStrCol rest = .ok (rest.map cellToStr) :=
      ih (fun x hx q => h x (List.mem_cons_of_mem cell hx) q)
    cases cell with
    | none => rw [asStrCol, hrest]; rfl
    | some v =>
      cases v with
      | str w => rw [asStrCol, hrest]; rfl
      | num q => exact absurd rfl (h _ (List.mem_cons_self _ _) q)

theorem asStrCol_ok_imp {c : Column} {sc : List (Option String)}
    (h : asStrCol c = .ok sc) : sc = c.map cellToStr := by
  induction c generalizing sc with
  | nil =>
    rw [asStrCol] at h
    cases h
    rfl
  | cons cell rest ih =>
    cases cell with
    | none =>
      rw [asStrCol] at h
      cases hr : asStrCol rest with
      | error e => rw [hr] at h; cases h
      | ok t =>
        rw [hr] at h
        cases h
        rw [List.map_cons, ← ih hr]
        rfl
    | some v =>
      cases v with
      | str w =>
        rw [asStrCol] at h
        cases hr : asStrCol rest with
        | error e => rw [hr] at h; cases h
        | ok t =>
          rw [hr] at h
          cases h
          rw [List.map_cons, ← ih hr]
          rfl
      | num q => rw [asStrCol] at h; cases h

theorem handleColumn_cases (e : String × Column) (r : MissingReport) :
    handleColumn e r = .ok (repairColumn e, hcReport e r) ∨
      ∃ msg, handleColumn e r = .error msg := by
  unfold handleColumn repairColumn hcReport colDetails
  by_cases h1 : 0 < missingCount e.2
  · simp only [if_pos h1]
    by_cases h2 : detect_data_types e.1 = "numeric"
    · simp only [if_pos h2]
      cases hnc : asNumCol e.2 with
      | error msg => exact Or.inr ⟨msg, rfl⟩
      | ok nc =>
        obtain rfl := asNumCol_ok_imp hnc
        left
        simp [interpolate_numeric_eq]
    · simp only [if_neg h2]
      by_cases h3 : detect_data_types e.1 = "categorical"
      · simp only [if_pos h3]
        cases hsc : asStrCol e.2 with
        | error msg => exact Or.inr ⟨msg, rfl⟩
        | ok sc =>
          obtain rfl := asStrCol_ok_imp hsc
          left
          rfl
      · simp only [if_neg h3]
        left
        trivial
  · simp only [if_neg h1]
    left
    trivial

theorem hcReport_fields (e : String × Column) (r : MissingReport) :
    (hcReport e r).numeric_fields_missing = r.numeric_fields_missing +
      (if detect_data_types e.1 = "numeric" then missingCount e.2 else 0) ∧
    (hcReport e r).categorical_fields_missing = r.categorical_fields_missing +
      (if detect_data_types e.1 = "categorical" then missingCount e.2 else 0) ∧
    (hcReport e r).columns_with_missing = r.columns_with_missing ++
      (if 0 < missingCount e.2 then [e.1] else []) ∧
    (hcReport e r).interpolation_details =
      r.interpolation_details ++ colDetails e := by
  unfold hcReport colDetails
  by_cases h1 : 0 < missingCount e.2
  · by_cases h2 : detect_data_types e.1 = "numeric"
    · simp [h1, h2]
    · by_cases h3 : detect_data_types e.1 = "categorical"
      · have h2' : detect_data_types e.1 ≠ "numeric" := h2
        simp [h1, h2', h3]
      · simp [h1, h2, h3]
  · have h0 : missingCount e.2 = 0 := by omega
    simp [h1, h0]

theorem hmvGo_spec :
    ∀ (df acc : Table) (report0 : MissingReport) (out : Table)
      (rep : MissingReport),
      hmvGo acc report0 df = .ok (out, rep) →
      out = acc ++ df.map repairColumn ∧
      rep.numeric_fields_missing = report0.numeric_fields_missing +
        ((df.filter (fun e => decide (detect_data_types e.1 = "numeric"))).map
          (fun e => missingCount e.2)).sum ∧
      rep.categorical_fields_missing = report0.categorical_fields_missing +
        ((df.filter (fun e => decide (detect_data_types e.1 = "categorical"))).map
          (fun e => missingCount e.2)).sum ∧
      rep.columns_with_missing = report0.columns_with_missing ++
        (df.filter (fun e => decide (0 < missingCount e.2))).map Prod.fst ∧
      rep.interpolation_details = report0.interpolation_details ++
        (df.map colDetails).flatten := by
  intro df
  induction df with
  | nil =>
    intro acc r0 out rep h
    rw [hmvGo] at h
    injection h with h'
    injection h' with ha hb
    subst ha
    subst hb
    simp
  | cons e rest ih =>
    intro acc r0 out rep h
    rw [hmvGo] at h
    rcases handleColumn_cases e r0 with hc | ⟨msg, hc⟩
    · rw [hc] at h
      obtain ⟨h1, h2, h3, h4, h5⟩ :=
        ih (acc ++ [repairColumn e]) (hcReport e r0) out rep h
      obtain ⟨f1, f2, f3, f4⟩ := hcReport_fields e r0
      refine ⟨?_, ?_, ?_, ?_, ?_⟩
      · rw [h1, List.map_cons, List.append_assoc]
        rfl
      · rw [h2, f1, List.filter_cons]
        by_cases hn : detect_data_types e.1 = "numeric"
        · rw [if_pos hn, if_pos (decide_eq_true hn), List.map_cons, List.sum_cons]
          omega
        · rw [if_neg hn, if_neg (by simpa using hn)]
          omega
      · rw [h3, f2, List.filter_cons]
        by_cases hn : detect_data_types e.1 = "categorical"
        · rw [if_pos hn, if_pos (decide_eq_true hn), List.map_cons, List.sum_cons]
          omega
        · rw [if_neg hn, if_neg (by simpa using hn)]
          omega
      · rw [h4, f3, List.filter_cons]
        by_cases hn : 0 < missingCount e.2
        · rw [if_pos hn, if_pos (decide_eq_true hn), List.map_cons,
            List.append_assoc]
          rfl
        · rw [if_neg hn, if_neg (by simpa using hn), List.append_nil]
      · rw [h5, f4, List.map_cons, List.flatten_cons, List.append_assoc]
    · rw [hc] at h
      cases h

theorem wellTypedCol_num {e : String × Column} (h : wellTypedCol e = true)
    (h2 : detect_data_types e.1 = "numeric") :
    ∀ cell ∈ e.2, ∀ v, cell ≠ some (Val.str v) := by
  rw [wellTypedCol, if_pos h2] at h
  intro cell hc v hv
  have hb := List.all_eq_true.mp h cell hc
  rw [hv] at hb
  simp at hb

theorem wellTypedCol_cat {e : String × Column} (h : wellTypedCol e = true)
    (h2 : detect_data_types e.1 = "categorical") :
    ∀ cell ∈ e.2, ∀ q, cell ≠ some (Val.num q) := by
  have h2' : detect_data_types e.1 ≠ "numeric" := by
    rw [h2]
    decide
  rw [wellTypedCol, if_neg h2', if_pos h2] at h
  intro cell hc q hv
  have hb := List.all_eq_true.mp h cell hc
  rw [hv] at hb
  simp at hb

theorem handleColumn_ok_of (e : String × Column) (r : MissingReport)
    (hcond : missingCount e.2 = 0 ∨ (∀ x ∈ e.2, x = none) ∨
      wellTypedCol e = true) :
    handleColumn e r = .ok (repairColumn e, hcReport e r) := by
  rcases handleColumn_cases e r with h | ⟨msg, h⟩
  · exact h
  · exfalso
    rw [handleColumn] at h
    by_cases h1 : 0 < missingCount e.2
    · rw [if_pos h1] at h
      by_cases h2 : detect_data_types e.1 = "numeric"
      · rw [if_pos h2] at h
        have hok : asNumCol e.2 = .ok (e.2.map cellToNum) := by
          apply asNumCol_eq_ok
          rcases hcond with h0 | hall | hwt
          · omega
          · intro cell hc v hv
            rw [hall cell hc] at hv
            cases hv
          · exact wellTypedCol_num hwt h2
        rw [hok] at h
        simp only [interpolate_numeric_eq] at h
        exact Except.noConfusion h
      · rw [if_neg h2] at h
        by_cases h3 : detect_data_types e.1 = "categorical"
        · rw [if_pos h3] at h
          have hok : asStrCol e.2 = .ok (e.2.map cellToStr) := by
            apply asStrCol_eq_ok
            rcases hcond with h0 | hall | hwt
            · omega
            · intro cell hc q hv
              rw [hall cell hc] at hv
              cases hv
            · exact wellTypedCol_cat hwt h3
          rw [hok] at h
          exact Except.noConfusion h
        · rw [if_neg h3] at h
          cases h
    · rw [if_neg h1] at h
      cases h

theorem hmvGo_ok :
    ∀ (df : Table),
      (∀ e ∈ df, missingCount e.2 = 0 ∨ (∀ x ∈ e.2, x = none) ∨
        wellTypedCol e = true) →
      ∀ acc r0, ∃ out rep, hmvGo acc r0 df = .ok (out, rep) := by
  intro df
  induction df with
  | nil => exact fun h acc r0 => ⟨acc, r0, rfl⟩
  | cons e rest ih =>
    intro h acc r0
    obtain ⟨out, rep, hrec⟩ := ih (fun x hx => h x (List.mem_cons_of_mem _ hx))
      (acc ++ [repairColumn e]) (hcReport e r0)
    refine ⟨out, rep, ?_⟩
    rw [hmvGo, handleColumn_ok_of e r0 (h e (List.mem_cons_self _ _))]
    exact hrec

theorem handleColumn_no_missing {e : String × Column} (r : MissingReport)
    (h : missingCount e.2 = 0) : handleColumn e r = .ok ((e.1, e.2), r) := by
  rw [handleColumn, h]
  rfl

theorem repairColumn_no_missing {e : String × Column}
    (h : missingCount e.2 = 0) : repairColumn e = e := by
  rw [repairColumn, h]
  rfl

theorem hmvGo_no_missing :
    ∀ (df : Table), (∀ e ∈ df, missingCount e.2 = 0) →
      ∀ acc r0, hmvGo acc r0 df = .ok (acc ++ df, r0) := by
  intro df
  induction df with
  | nil =>
    intro h acc r0
    rw [hmvGo]
    simp
  | cons e rest ih =>
    intro h acc r0
    rw [hmvGo, handleColumn_no_missing r0 (h e (List.mem_cons_self _ _))]
    show hmvGo (acc ++ [(e.1, e.2)]) r0 rest = _
    rw [ih (fun x hx => h x (List.mem_cons_of_mem _ hx)) (acc ++ [(e.1, e.2)]) r0]
    simp

theorem charListLe_refl : ∀ l : List Char, charListLe l l = true := by
  intro l
  induction l with
  | nil => rfl
  | cons a as ih =>
    rw [charListLe, if_neg (Nat.lt_irrefl _), if_neg (Nat.lt_irrefl _)]
    exact ih

theorem charListLe_total : ∀ a b : List Char,
    charListLe a b = true ∨ charListLe b a = true := by
  intro a
  induction a with
  | nil => intro b; left; rfl
  | cons x xs ih =>
    intro b
    cases b with
    | nil => right; rfl
    | cons y ys =>
      rw [charListLe, charListLe]
      rcases Nat.lt_trichotomy x.toNat y.toNat with h | h | h
      · left
        rw [if_pos h]
      · rw [if_neg (by omega), if_neg (by omega), if_neg (by omega),
          if_neg (by omega)]
        exact ih ys
      · right
        rw [if_pos h]

theorem charListLe_trans : ∀ a b c : List Char, charListLe a b = true →
    charListLe b c = true → charListLe a c = true := by
  intro a
  induction a with
  | nil => intro b c h1 h2; rfl
  | cons x xs ih =>
    intro b c h1 h2
    cases b with
    | nil => rw [charListLe] at h1; exact Bool.noConfusion h1
    | cons y ys =>
      cases c with
      | nil => rw [charListLe] at h2; exact Bool.noConfusion h2
      | cons z zs =>
        rw [charListLe] at h1 h2 ⊢
        by_cases hxz : x.toNat < z.toNat
        · rw [if_pos hxz]
        · rw [if_neg hxz]
          by_cases hxy : x.toNat < y.toNat
          · by_cases hyz : y.toNat < z.toNat
            · omega
            · by_cases hzy : z.toNat < y.toNat
              · rw [if_neg hyz, if_pos hzy] at h2
                exact Bool.noConfusion h2
              · omega
          · by_cases hyx : y.toNat < x.toNat
            · rw [if_neg hxy, if_pos hyx] at h1
              exact Bool.noConfusion h1
            · rw [if_neg hxy, if_neg hyx] at h1
              by_cases hyz : y.toNat < z.toNat
              · omega
              · by_cases hzy : z.toNat < y.toNat
                · rw [if_neg hyz, if_pos hzy] at h2
                  exact Bool.noConfusion h2
                · rw [if_neg hyz, if_neg hzy] at h2
                  rw [if_neg (by omega)]
                  exact ih ys zs h1 h2

theorem strLeB_refl (a : String) : strLeB a a = true := charListLe_refl a.data

theorem strLeB_total (a b : String) : strLeB a b = true ∨ strLeB b a = true :=
  charListLe_total a.data b.data

theorem strLeB_trans (a b c : String) (h1 : strLeB a b = true)
    (h2 : strLeB b c = true) : strLeB a c = true :=
  charListLe_trans a.data b.data c.data h1 h2

theorem mem_insertSorted {x : String} :
    ∀ {l : List String} {y : String}, y ∈ insertSorted x l ↔ y = x ∨ y ∈ l := by
  intro l
  induction l with
  | nil =>
    intro y
    rw [insertSorted]
    simp
  | cons a as ih =>
    intro y
    rw [insertSorted]
    by_cases h : strLeB x a = true
    · rw [if_pos h]
      simp only [List.mem_cons]
    · rw [if_neg h]
      simp only [List.mem_cons, ih]
      tauto

theorem pairwise_insertSorted {x : String} :
    ∀ {l : List String}, l.Pairwise (fun a b => strLeB a b = true) →
      (insertSorted x l).Pairwise (fun a b => strLeB a b = true) := by
  intro l
  induction l with
  | nil =>
    intro h
    rw [insertSorted]
    exact List.pairwise_singleton _ _
  | cons a as ih =>
    intro h
    rcases List.pairwise_cons.mp h with ⟨ha, has⟩
    rw [insertSorted]
    by_cases hxa : strLeB x a = true
    · rw [if_pos hxa]
      refine List.pairwise_cons.mpr ⟨?_, h⟩
      intro b hb
      rcases List.mem_cons.mp hb with rfl | hb
      · exact hxa
      · exact strLeB_trans _ _ _ hxa (ha b hb)
    · rw [if_neg hxa]
      refine List.pairwise_cons.mpr ⟨?_, ih has⟩
      intro b hb
      rcases mem_insertSorted.mp hb with rfl | hb
      · rcases strLeB_total a b with h1 | h1
        · exact h1
        · exact absurd h1 hxa
      · exact ha b hb

theorem mem_sortStr : ∀ {l : List String} {y : String}, y ∈ sortStr l ↔ y ∈ l := by
  intro l
  induction l with
  | nil => intro y; rfl
  | cons a as ih =>
    intro y
    show y ∈ insertSorted a (sortStr as) ↔ _
    rw [mem_insertSorted, List.mem_cons, ih]

theorem pairwise_sortStr :
    ∀ (l : List String), (sortStr l).Pairwise (fun a b => strLeB a b = true) := by
  intro l
  induction l with
  | nil => exact List.Pairwise.nil
  | cons a as ih => exact pairwise_insertSorted ih

theorem sortStr_head_min {l : List String} {m : String}
    (h : (sortStr l).head? = some m) : m ∈ l ∧ ∀ x ∈ l, strLeB m x = true := by
  cases hs : sortStr l with
  | nil => rw [hs] at h; exact Option.noConfusion h
  | cons a rest =>
    rw [hs] at h
    obtain rfl : a = m := Option.some.inj h
    constructor
    · exact mem_sortStr.mp (hs ▸ List.mem_cons_self a rest)
    · intro x hx
      have hx' : x ∈ sortStr l := mem_sortStr.mpr hx
      rw [hs] at hx'
      rcases List.mem_cons.mp hx' with rfl | hx'
      · exact strLeB_refl x
      · have hp := pairwise_sortStr l
        rw [hs] at hp
        exact (List.pairwise_cons.mp hp).1 x hx'

theorem foldr_max_mem : ∀ (l : List Nat), l ≠ [] → (l.foldr max 0) ∈ l := by
  intro l
  induction l with
  | nil => intro h; exact absurd rfl h
  | cons a as ih =>
    intro _
    rw [List.foldr_cons]
    cases as with
    | nil =>
      rw [List.foldr_nil]
      simp
    | cons b bs =>
      rcases Nat.le_total (List.foldr max 0 (b :: bs)) a with h | h
      · rw [Nat.max_eq_left h]
        exact List.mem_cons_self _ _
      · rw [Nat.max_eq_right h]
        exact List.mem_cons_of_mem _ (ih (by simp))
  
theorem le_foldr_max : ∀ (l : List Nat) (x : Nat), x ∈ l → x ≤ l.foldr max 0 := by
  intro l
  induction l with
  | nil => intro x hx; exact absurd hx (List.not_mem_nil x)
  | cons a as ih =>
    intro x hx
    rw [List.foldr_cons]
    rcases List.mem_cons.mp hx with rfl | hx
    · exact Nat.le_max_left _ _
    · exact Nat.le_trans (ih x hx) (Nat.le_max_right _ _)

theorem mode_head_spec {s : List (Option String)} {x0 : String}
    (hx : (some x0) ∈ s) :
    ∃ m, (mode s).head? = some m ∧ (some m) ∈ s ∧
      (∀ v, (some v) ∈ s → s.reduceOption.count v ≤ s.reduceOption.count m) ∧
      (∀ v, (some v) ∈ s → s.reduceOption.count v = s.reduceOption.count m →
        strLeB m v = true) := by
  have hv : x0 ∈ s.reduceOption := List.reduceOption_mem_iff.mpr hx
  have hu : x0 ∈ s.reduceOption.dedup := List.mem_dedup.mpr hv
  have hmapne :
      (s.reduceOption.dedup.map (fun v => s.reduceOption.count v)) ≠ [] := by
    intro hc
    rw [List.map_eq_nil_iff] at hc
    rw [hc] at hu
    exact List.not_mem_nil _ hu
  obtain ⟨u, huu, hcu⟩ := List.mem_map.mp (foldr_max_mem _ hmapne)
  have hucand : u ∈ (s.reduceOption.dedup).filter
      (fun v => s.reduceOption.count v ==
        ((s.reduceOption.dedup).map (fun v => s.reduceOption.count v)).foldr max 0) :=
    List.mem_filter.mpr ⟨huu, by rw [hcu]; exact beq_self_eq_true _⟩
  have hsne : mode s ≠ [] := by
    intro hc
    have hmem := mem_sortStr.mpr hucand
    rw [show sortStr ((s.reduceOption.dedup).filter
      (fun v => s.reduceOption.count v ==
        ((s.reduceOption.dedup).map (fun v => s.reduceOption.count v)).foldr max 0)) =
        mode s from rfl, hc] at hmem
    exact List.not_mem_nil _ hmem
  cases hh : (mode s).head? with
  | none => exact absurd (List.head?_eq_none_iff.mp hh) hsne
  | some m =>
    obtain ⟨hmmem, hmmin⟩ := @sortStr_head_min
      ((s.reduceOption.dedup).filter
        (fun v => s.reduceOption.count v ==
          ((s.reduceOption.dedup).map (fun v => s.reduceOption.count v)).foldr max 0))
      m hh
    obtain ⟨hmuniq, hmcnt⟩ := List.mem_filter.mp hmmem
    have hmcnt' : s.reduceOption.count m =
        ((s.reduceOption.dedup).map (fun v => s.reduceOption.count v)).foldr max 0 := by
      simpa using hmcnt
    refine ⟨m, rfl, ?_, ?_, ?_⟩
    · exact List.reduceOption_mem_iff.mp (List.mem_dedup.mp hmuniq)
    · intro v hvs
      have hvd : v ∈ s.reduceOption.dedup :=
        List.mem_dedup.mpr (List.reduceOption_mem_iff.mpr hvs)
      have : s.reduceOption.count v ∈
          (s.reduceOption.dedup.map (fun v => s.reduceOption.count v)) :=
        List.mem_map.mpr ⟨v, hvd, rfl⟩
      rw [hmcnt']
      exact le_foldr_max _ _ this
    · intro v hvs hcnt
      have hvd : v ∈ s.reduceOption.dedup :=
        List.mem_dedup.mpr (List.reduceOption_mem_iff.mpr hvs)
      have hvcand : v ∈ (s.reduceOption.dedup).filter
          (fun v => s.reduceOption.count v ==
            ((s.reduceOption.dedup).map (fun v => s.reduceOption.count v)).foldr max 0) := by
        refine List.mem_filter.mpr ⟨hvd, ?_⟩
        rw [hcnt, hmcnt']
        exact beq_self_eq_true _
      exact hmmin v hvcand

theorem fill_categorical_of_head {s : List (Option String)} {m : String}
    (h : (mode s).head? = some m) :
    fill_categorical s = s.map (fun c => some (c.getD m)) := by
  unfold fill_categorical
  rw [h]

theorem reduceOption_all_none {s : List (Option String)}
    (h : ∀ x ∈ s, x = none) : s.reduceOption = [] := by
  induction s with
  | nil => rfl
  | cons a as ih =>
    have ha : a = none := h a (List.mem_cons_self _ _)
    subst ha
    rw [List.reduceOption_cons_of_none]
    exact ih (fun x hx => h x (List.mem_cons_of_mem _ hx))

theorem mode_all_none {s : List (Option String)} (h : ∀ x ∈ s, x = none) :
    mode s = [] := by
  unfold mode
  rw [reduceOption_all_none h]
  rfl

theorem fill_categorical_all_absent {s : List (Option String)}
    (h : ∀ x ∈ s, x = none) :
    fill_categorical s = s.map (fun _ => some "Unknown") := by
  unfold fill_categorical
  rw [mode_all_none h]
  apply List.map_congr_left
  intro a ha
  rw [h a ha]
  rfl

/-- Python `sep.join(strs)`. -/
def joinSep (sep : String) : List String → String
  | [] => ""
  | s :: rest => s ++ String.join (rest.map (fun t => sep ++ t))

/-- One rendered block of `_format_interpolation_details` (lines 239-245), the
f-string of the Python loop body. -/
def format_detail (column : String) (item : InterpRecord) : String :=
  "   Column: " ++ column ++
  "\n   - Missing at index: " ++ Nat.repr item.missing_index ++
  "\n   - Left value (index " ++ Nat.repr item.left_index ++ "): " ++
  fmtQ item.left_value ++
  "\n   - Right value (index " ++ Nat.repr item.right_index ++ "): " ++
  fmtQ item.right_value ++
  "\n   - Interpolation calculation: " ++ item.calculation ++
  "\n   - Interpolated value: " ++ fmtQ item.interpolated_value ++ "\n"

/-- Embedding of `DataRefineAI._format_interpolation_details` (lines 232-247). -/
def format_interpolation_details (details : List (String × InterpRecord)) :
    String :=
  if details.isEmpty then "   No interpolation performed"
  else joinSep "\n" (details.map (fun d => format_detail d.1 d.2))

/-- The validation-report state read by `generate_report`: the fields of
`self.validation_report` that the template interpolates. -/
structure ValidationReport where
  total_rows : Nat
  total_columns : Nat
  numeric_fields_missing : Nat
  categorical_fields_missing : Nat
  columns_with_missing : List String
  interpolation_details : List (String × InterpRecord)
  total_duplicates : Nat
  conflicting_records : Nat
  text_fields : Bool
  numeric_fields : Bool
  rows_after_cleaning : Nat
  columns_after_cleaning : Nat
deriving DecidableEq, Repr

/-- Python `str()` of a bool. -/
def fmtBool (b : Bool) : String := if b then "True" else "False"

/-- The part of the `generate_report` template (lines 190-203) that precedes the
interpolation-details hole. -/
def reportHead (vr : ValidationReport) : String :=
  "\nSummary Report\n\n1. Data Overview:\n   - Total Rows: " ++
  Nat.repr vr.total_rows ++
  "\n   - Total Columns: " ++ Nat.repr vr.total_columns ++
  "\n\n2. Missing Data Handling:\n   - Numeric Fields missing: " ++
  Nat.repr vr.numeric_fields_missing ++
  "\n   - Categorical Fields missing: " ++
  Nat.repr vr.categorical_fields_missing ++
  "\n   - Columns with Missing Data: " ++
  joinSep ", " vr.columns_with_missing ++
  "\n\n   Interpolation Details:\n"

/-- The part of the `generate_report` template (lines 204-215) that follows the
interpolation-details hole. -/
def reportTail (vr : ValidationReport) : String :=
  "\n\n3. Duplicate Records:\n   - Total Duplicates Removed: " ++
  Nat.repr vr.total_duplicates ++
  "\n   - Conflicting Records: " ++ Nat.repr vr.conflicting_records ++
  "\n\n4. Data Normalization:\n   - Text Fields Normalization: " ++
  fmtBool vr.text_fields ++
  "\n   - Numeric Fields Normalization: " ++ fmtBool vr.numeric_fields ++
  "\n\n5. Final Dataset Status:\n   - Number of Rows After Cleaning: " ++
  Nat.repr vr.rows_after_cleaning ++
  "\n   - Number of Columns After Cleaning: " ++
  Nat.repr vr.columns_after_cleaning ++ "\n"

/-- Embedding of `DataRefineAI.generate_report` (lines 188-230): the template
with the interpolation-details rendering spliced in the middle. -/
def generate_report (vr : ValidationReport) : String :=
  reportHead vr ++ format_interpolation_details vr.interpolation_details ++
    reportTail vr

/-- One string occurs inside another as a contiguous substring. -/
def substrOf (sub big : String) : Prop := sub.data <:+: big.data

theorem substrOf_refl (s : String) : substrOf s s := ⟨[], [], by simp⟩

theorem substrOf_appendLeft {sub t : String} (u : String) (h : substrOf sub t) :
    substrOf sub (u ++ t) := by
  obtain ⟨a, b, hab⟩ := h
  refine ⟨u.data ++ a, b, ?_⟩
  rw [String.data_append, ← hab]
  simp [List.append_assoc]

theorem substrOf_appendRight {sub t : String} (u : String) (h : substrOf sub t) :
    substrOf sub (t ++ u) := by
  obtain ⟨a, b, hab⟩ := h
  refine ⟨a, b ++ u.data, ?_⟩
  rw [String.data_append, ← hab]
  simp [List.append_assoc]

theorem format_interpolation_details_ne {c : String} {r : InterpRecord}
    {rest : List (String × InterpRecord)} :
    format_interpolation_details ((c, r) :: rest) ≠
      "   No interpolation performed" := by
  intro h
  unfold format_interpolation_details at h
  rw [if_neg (by simp)] at h
  rw [List.map_cons] at h
  rw [joinSep] at h
  have hd := congrArg String.data h
  simp only [format_detail, String.data_append, List.append_assoc] at hd
  have h3 := congrArg (fun l => l[3]?) hd
  simp only [] at h3
  rw [List.getElem?_append_left (by decide)] at h3
  exact absurd h3 (by decide)

theorem format_interpolation_details_iff
    (details : List (String × InterpRecord)) :
    format_interpolation_details details = "   No interpolation performed" ↔
      details = [] := by
  constructor
  · intro h
    cases details with
    | nil => rfl
    | cons d rest =>
      obtain ⟨c, r⟩ := d
      exact absurd h format_interpolation_details_ne
  · intro h
    subst h
    rfl

theorem generate_report_empty_line {vr : ValidationReport}
    (h : vr.interpolation_details = []) :
    substrOf "No interpolation performed" (generate_report vr) := by
  rw [generate_report, h]
  apply substrOf_appendRight
  apply substrOf_appendLeft
  show substrOf "No interpolation performed" "   No interpolation performed"
  exact ⟨"   ".data, [], by decide⟩

theorem generate_report_single_substrings {vr : ValidationReport} {c : String}
    {rec : InterpRecord} (h : vr.interpolation_details = [(c, rec)]) :
    substrOf c (generate_report vr) ∧
    substrOf (Nat.repr rec.missing_index) (generate_report vr) ∧
    substrOf (fmtQ rec.left_value) (generate_report vr) ∧
    substrOf (fmtQ rec.right_value) (generate_report vr) ∧
    substrOf (fmtQ rec.interpolated_value) (generate_report vr) := by
  rw [generate_report, h]
  have hfid : format_interpolation_details [(c, rec)] =
      format_detail c rec ++ String.join [] := by
    unfold format_interpolation_details
    rw [if_neg (by simp)]
    rfl
  rw [hfid]
  refine ⟨?_, ?_, ?_, ?_, ?_⟩
  · apply substrOf_appendRight
    apply substrOf_appendLeft
    apply substrOf_appendRight
    simp only [format_detail]
    iterate 15 apply substrOf_appendRight
    exact substrOf_appendLeft _ (substrOf_refl _)
  · apply substrOf_appendRight
    apply substrOf_appendLeft
    apply substrOf_appendRight
    simp only [format_detail]
    iterate 13 apply substrOf_appendRight
    exact substrOf_appendLeft _ (substrOf_refl _)
  · apply substrOf_appendRight
    apply substrOf_appendLeft
    apply substrOf_appendRight
    simp only [format_detail]
    iterate 9 apply substrOf_appendRight
    exact substrOf_appendLeft _ (substrOf_refl _)
  · apply substrOf_appendRight
    apply substrOf_appendLeft
    apply substrOf_appendRight
    simp only [format_detail]
    iterate 5 apply substrOf_appendRight
    exact substrOf_appendLeft _ (substrOf_refl _)
  · apply substrOf_appendRight
    apply substrOf_appendLeft
    apply substrOf_appendRight
    simp only [format_detail]
    iterate 1 apply substrOf_appendRight
    exact substrOf_appendLeft _ (substrOf_refl _)

theorem single_cell_cond (c : Column) (h : c.length = 1) :
    missingCount c = 0 ∨ ∀ x ∈ c, x = none := by
  cases c with
  | nil => exact absurd h (by decide)
  | cons a as =>
    cases as with
    | nil =>
      cases a with
      | none =>
        right
        intro x hx
        rw [List.mem_singleton] at hx
        exact hx
      | some v => left; rfl
    | cons b bs =>
      rw [List.length_cons, List.length_cons] at h
      omega

theorem repairColumn_id {e : String × Column}
    (hid : detect_data_types e.1 = "id") : repairColumn e = e := by
  unfold repairColumn
  have h2 : detect_data_types e.1 ≠ "numeric" := by rw [hid]; decide
  have h3 : detect_data_types e.1 ≠ "categorical" := by rw [hid]; decide
  by_cases h1 : 0 < missingCount e.2
  · rw [if_pos h1, if_neg h2, if_neg h3]
  · rw [if_neg h1]

theorem getElem?_of_getD_some {α : Type} {s : List (Option α)} {i : Nat} {v : α}
    (h : s.getD i none = some v) : s[i]? = some (some v) := by
  rw [List.getD_eq_getElem?_getD] at h
  cases hx : s[i]? with
  | none => rw [hx] at h; exact Option.noConfusion h
  | some x =>
    rw [hx] at h
    have : x = some v := h
    rw [this]

theorem colDetails_fst {e : String × Column} {d : String × InterpRecord}
    (hd : d ∈ colDetails e) :
    d.1 = e.1 ∧ detect_data_types e.1 = "numeric" ∧ 0 < missingCount e.2 := by
  unfold colDetails at hd
  by_cases h1 : 0 < missingCount e.2
  · rw [if_pos h1] at hd
    by_cases h2 : detect_data_types e.1 = "numeric"
    · rw [if_pos h2] at hd
      obtain ⟨r, -, hr⟩ := List.mem_map.mp hd
      rw [← hr]
      exact ⟨rfl, h2, h1⟩
    · rw [if_neg h2] at hd
      exact absurd hd (List.not_mem_nil d)
  · rw [if_neg h1] at hd
    exact absurd hd (List.not_mem_nil d)

theorem interpolation_details_src {df out : Table} {rep : MissingReport}
    (h : handle_missing_values df = .ok (out, rep)) :
    ∀ d ∈ rep.interpolation_details, ∃ e, e ∈ df ∧ d.1 = e.1 ∧
      detect_data_types e.1 = "numeric" ∧ 0 < missingCount e.2 := by
  obtain ⟨-, -, -, -, h5⟩ := hmvGo_spec df [] emptyMissingReport out rep h
  have h5' : rep.interpolation_details = (df.map colDetails).flatten := by
    simpa [emptyMissingReport] using h5
  intro d hd
  rw [h5'] at hd
  obtain ⟨ld, hld, hdin⟩ := List.mem_flatten.mp hd
  obtain ⟨e, hedf, he⟩ := List.mem_map.mp hld
  rw [← he] at hdin
  obtain ⟨h1, h2, h3⟩ := colDetails_fst hdin
  exact ⟨e, hedf, h1, h2, h3⟩

theorem filter_map_sum_eraseIdx (p : String × Column → Bool)
    (f : String × Column → Nat) (df : Table) (i : Nat) (hi : i < df.length)
    (hz : p (df.get ⟨i, hi⟩) = false ∨ f (df.get ⟨i, hi⟩) = 0) :
    ((df.filter p).map f).sum = (((df.eraseIdx i).filter p).map f).sum := by
  have hget : df.get ⟨i, hi⟩ = df[i] := List.get_eq_getElem df ⟨i, hi⟩
  rw [hget] at hz
  conv_lhs => rw [← List.take_append_drop i df, List.drop_eq_getElem_cons hi]
  rw [List.eraseIdx_eq_take_drop_succ, List.filter_append, List.filter_append,
    List.map_append, List.map_append, List.sum_append, List.sum_append,
    List.filter_cons]
  rcases hz with hz | hz
  · rw [if_neg (by simp [hz])]
  · by_cases hp : p df[i] = true
    · rw [if_pos hp, List.map_cons, List.sum_cons, hz]
      omega
    · rw [if_neg hp]

theorem notMem_map_fst_filter (df : Table) (i : Nat) (hi : i < df.length)
    (hnd : (df.map Prod.fst).Nodup)
    (h0 : missingCount (df.get ⟨i, hi⟩).2 = 0) :
    (df.get ⟨i, hi⟩).1 ∉
      (df.filter (fun e => decide (0 < missingCount e.2))).map Prod.fst := by
  intro hmem
  obtain ⟨e, hef, he1⟩ := List.mem_map.mp hmem
  obtain ⟨hedf, hep⟩ := List.mem_filter.mp hef
  obtain ⟨j, hj, hje⟩ := List.mem_iff_getElem.mp hedf
  have hj' : j < (df.map Prod.fst).length := by
    rw [List.length_map]
    exact hj
  have hi' : i < (df.map Prod.fst).length := by
    rw [List.length_map]
    exact hi
  have hmj : (df.map Prod.fst)[j] = e.1 := by
    rw [List.getElem_map, hje]
  have hmi : (df.map Prod.fst)[i] = (df.get ⟨i, hi⟩).1 := by
    rw [List.getElem_map]
    exact rfl
  have hji : j = i := by
    apply (List.Nodup.getElem_inj_iff hnd).mp
    rw [hmj, hmi, he1]
  subst hji
  have he : e = df.get ⟨j, hi⟩ := hje.symm
  rw [he] at hep
  rw [h0] at hep
  simp at hep

theorem ciRecord_eq {s : NumCol} {i L R : Nat} {vL vR : ℚ}
    (hlast : (beforeIdxs s i).getLast? = some L)
    (hhead : (afterIdxs s i).head? = some R)
    (hvL : s.getD L none = some vL) (hvR : s.getD R none = some vR) :
    ciRecord s i = some {
      missing_index := i
      left_value := vL
      right_value := vR
      left_index := L
      right_index := R
      interpolated_value := round2 (vL + (vR - vL) *
        (((i : ℚ) - (L : ℚ)) / ((R : ℚ) - (L : ℚ))))
      calculation := "Value_" ++ fmtQ vL ++ " + (" ++ fmtQ vR ++ " - " ++
        fmtQ vL ++ ") × (" ++ Nat.repr i ++ " - " ++ Nat.repr L ++ ")/(" ++
        Nat.repr R ++ " - " ++ Nat.repr L ++ ")" } := by
  unfold ciRecord
  rw [hlast, hhead]
  simp only [hvL, hvR, Option.getD_some]

/-- C1: for every numeric column and gap position with a nearest present left
neighbour at `L` (value `vL`) and nearest present right neighbour at `R`
(value `vR`), `calculate_interpolation` returns a record whose
`interpolated_value` is `vL + (vR - vL) * (i - L)/(R - L)` rounded to two
decimal digits; in particular on `[10, absent, absent, 40]` the two records,
in ascending `missing_index` order, carry values `20` and `30` at positions
`1` and `2`. -/
theorem calculate_interpolation_formula :
    (∀ (s : NumCol) (i L R : Nat) (vL vR : ℚ),
      s.getD i none = none →
      L < i → s.getD L none = some vL →
      (∀ j, L < j → j < i → s.getD j none = none) →
      i < R → s.getD R none = some vR →
      (∀ j, i < j → j < R → s.getD j none = none) →
      ∃ rec, calculate_interpolation s i = .ok (some rec) ∧
        rec.interpolated_value =
          round2 (vL + (vR - vL) *
            (((i : ℚ) - (L : ℚ)) / ((R : ℚ) - (L : ℚ))))) ∧
    (∃ repaired records,
      interpolate_numeric [some 10, none, none, some 40] =
        .ok (repaired, records) ∧
      records.map (fun r => (r.missing_index, r.interpolated_value)) =
        [(1, 20), (2, 30)]) := by
  constructor
  · intro s i L R vL vR hgap hLi hvL hmax hiR hvR hmin
    have hlast := beforeIdxs_getLast_eq hLi hvL hmax
    have hhead := afterIdxs_head_eq hgap hiR hvR hmin
    rw [ci_eq_ok, ciRecord_eq hlast hhead hvL hvR]
    exact ⟨_, rfl, rfl⟩
  · refine ⟨_, _, interpolate_numeric_eq _, ?_⟩
    rw [show missingIndices [some 10, none, none, some 40] = [1, 2] from
      by decide]
    have hc1 := ciRecord_eq
      (show (beforeIdxs [some 10, none, none, some 40] 1).getLast? =
        some 0 from by decide)
      (show (afterIdxs [some 10, none, none, some 40] 1).head? =
        some 3 from by decide)
      (show ([some 10, none, none, some 40] : NumCol).getD 0 none =
        some 10 from rfl)
      (show ([some 10, none, none, some 40] : NumCol).getD 3 none =
        some 40 from rfl)
    have hc2 := ciRecord_eq
      (show (beforeIdxs [some 10, none, none, some 40] 2).getLast? =
        some 0 from by decide)
      (show (afterIdxs [some 10, none, none, some 40] 2).head? =
        some 3 from by decide)
      (show ([some 10, none, none, some 40] : NumCol).getD 0 none =
        some 10 from rfl)
      (show ([some 10, none, none, some 40] : NumCol).getD 3 none =
        some 40 from rfl)
    rw [List.filterMap_cons_some hc1, List.filterMap_cons_some hc2,
      List.filterMap_nil, List.map_cons, List.map_cons, List.map_nil]
    norm_num [round2, roundHalfEven]

theorem calculate_interpolation_formula_witness :
    (([some 10, none, some 30] : NumCol).getD 1 none = none ∧
      (0 : Nat) < 1 ∧
      ([some 10, none, some 30] : NumCol).getD 0 none = some 10 ∧
      (1 : Nat) < 2 ∧
      ([some 10, none, some 30] : NumCol).getD 2 none = some 30) ∧
    (∃ rec, calculate_interpolation [some 10, none, some 30] 1 = .ok (some rec) ∧
      rec.interpolated_value =
        round2 (10 + (30 - 10) *
          ((((1 : Nat) : ℚ) - ((0 : Nat) : ℚ)) /
            (((2 : Nat) : ℚ) - ((0 : Nat) : ℚ))))) :=
  ⟨⟨rfl, by decide, rfl, by decide, rfl⟩,
    calculate_interpolation_formula.1 [some 10, none, some 30] 1 0 2 10 30 rfl
      (by decide) rfl (fun j h1 h2 => absurd h2 (by omega))
      (by decide) rfl (fun j h1 h2 => absurd h1 (by omega))⟩

/-- C2: for every numeric column, `interpolate_numeric` returns without raising,
the positions of the emitted records are exactly the gaps strictly between two
present values (one record per such gap, in ascending order), and at every such
gap the repaired column holds a value whose two-digit rounding is the recorded
`interpolated_value`. -/
theorem interpolate_numeric_exact_records (s : NumCol) :
    ∃ repaired records, interpolate_numeric s = .ok (repaired, records) ∧
      records.map (fun r => r.missing_index) =
        (List.range s.length).filter (fun i => interiorGap s i) ∧
      ∀ i, interiorGap s i = true →
        ∃ v rec, repaired.getD i none = some v ∧ rec ∈ records ∧
          rec.missing_index = i ∧ rec.interpolated_value = round2 v := by
  refine ⟨_, _, interpolate_numeric_eq s, recsOf_indices s, ?_⟩
  intro i hint
  have hint' := hint
  rw [interiorGap] at hint'
  simp only [Bool.and_eq_true] at hint'
  obtain ⟨⟨hn, hl⟩, hr⟩ := hint'
  have hgap : s.getD i none = none := Option.isNone_iff_eq_none.mp hn
  obtain ⟨j, hij, hjlen, -⟩ := hasRight_iff.mp hr
  have hi : i < s.length := by omega
  rcases ciRecord_gap_cases hgap with ⟨rec, hrec, hidx, -⟩ | ⟨-, hfalse⟩
  · cases hL : (beforeIdxs s i).getLast? with
    | none =>
      unfold ciRecord at hrec
      rw [hL] at hrec
      exact Option.noConfusion hrec
    | some L =>
      cases hR : (afterIdxs s i).head? with
      | none =>
        unfold ciRecord at hrec
        rw [hL, hR] at hrec
        exact Option.noConfusion hrec
      | some R =>
        obtain ⟨-, ⟨vL, hvL⟩, -⟩ := beforeIdxs_getLast_inv hL
        obtain ⟨-, -, ⟨vR, hvR⟩, -⟩ := afterIdxs_head_inv hR
        rw [ciRecord_eq hL hR hvL hvR] at hrec
        have hv : (pandasLinearFill s).getD i none =
            some ((s.getD L none).getD 0 +
              ((s.getD R none).getD 0 - (s.getD L none).getD 0) *
              (((i : ℚ) - (L : ℚ)) / ((R : ℚ) - (L : ℚ)))) := by
          rw [pandasLinearFill_getD s hi, hgap, hL, hR]
        refine ⟨_, rec, hv, ?_, hidx, ?_⟩
        · apply List.mem_filterMap.mpr
          refine ⟨i, ?_, ?_⟩
          · apply List.mem_filter.mpr
            refine ⟨List.mem_range.mpr hi, ?_⟩
            rw [List.getD_eq_getElem?_getD] at hgap
            simp [hgap]
          · rw [ciRecord_eq hL hR hvL hvR]
            exact hrec
        · obtain rfl := Option.some.inj hrec
          show round2 (vL + (vR - vL) *
            (((i : ℚ) - (L : ℚ)) / ((R : ℚ) - (L : ℚ)))) = _
          rw [hvL, hvR, Option.getD_some, Option.getD_some]
  · rw [hfalse] at hint
    exact Bool.noConfusion hint

theorem interpolate_numeric_exact_records_witness :
    interiorGap [some 0, none, some 1] 1 = true ∧
    (∃ repaired records,
      interpolate_numeric [some 0, none, some 1] = .ok (repaired, records) ∧
      records.map (fun r => r.missing_index) =
        (List.range ([some 0, none, some 1] : NumCol).length).filter
          (fun i => interiorGap [some 0, none, some 1] i) ∧
      ∃ v rec, repaired.getD 1 none = some v ∧ rec ∈ records ∧
        rec.missing_index = 1 ∧ rec.interpolated_value = round2 v) := by
  refine ⟨by decide, ?_⟩
  obtain ⟨repaired, records, h1, h2, h3⟩ :=
    interpolate_numeric_exact_records [some 0, none, some 1]
  exact ⟨repaired, records, h1, h2, h3 1 (by decide)⟩

/-- C3 counterexample: on the column `["b", "a", absent]` the values `"b"` and
`"a"` are tied in frequency and `"b"` is encountered first, so the claim
predicts the gap is filled with `"b"`; the code fills it with `"a"` (pandas
`mode()` returns the tied values in sorted order and the code takes the
smallest). -/
theorem fill_categorical_tie_counterexample :
    fill_categorical [some "b", some "a", none] =
        [some "b", some "a", some "a"] ∧
      fill_categorical [some "b", some "a", none] ≠
        [some "b", some "a", some "b"] := ⟨by decide, by decide⟩

/-- C3 (amended): for every categorical column with at least one present value,
`fill_categorical` replaces every absent entry with the most frequent present
value, breaking frequency ties by the smallest value in code-point
lexicographic order (the sorted order of pandas `mode()`), leaving present
entries unchanged; a column with no present values has every entry replaced by
the fallback `"Unknown"` (in particular an all-absent column of length 3
becomes `["Unknown", "Unknown", "Unknown"]`). -/
theorem fill_categorical_spec :
    (∀ (s : List (Option String)) (x0 : String), (some x0) ∈ s →
      ∃ m, (some m) ∈ s ∧
        (∀ v, (some v) ∈ s →
          s.reduceOption.count v ≤ s.reduceOption.count m) ∧
        (∀ v, (some v) ∈ s →
          s.reduceOption.count v = s.reduceOption.count m →
          strLeB m v = true) ∧
        fill_categorical s = s.map (fun c => some (c.getD m))) ∧
    (∀ s : List (Option String), (∀ x ∈ s, x = none) →
      fill_categorical s = s.map (fun _ => some "Unknown")) ∧
    (∀ (s : List (Option String)) (i : Nat) (v : String),
      s.getD i none = some v →
      (fill_categorical s).getD i none = some v) ∧
    fill_categorical [none, none, none] =
      [some "Unknown", some "Unknown", some "Unknown"] := by
  refine ⟨?_, ?_, ?_, by decide⟩
  · intro s x0 hx
    obtain ⟨m, hh, hm, hmax, htie⟩ := mode_head_spec hx
    exact ⟨m, hm, hmax, htie, fill_categorical_of_head hh⟩
  · exact fun s h => fill_categorical_all_absent h
  · intro s i v hv
    have hel := getElem?_of_getD_some hv
    unfold fill_categorical
    cases (mode s).head? with
    | some m =>
      rw [List.getD_eq_getElem?_getD, List.getElem?_map, hel]
      rfl
    | none =>
      rw [List.getD_eq_getElem?_getD, List.getElem?_map, hel]
      rfl

theorem fill_categorical_spec_witness :
    (some "b") ∈ ([some "b", some "a", none] : List (Option String)) ∧
    (∃ m, (some m) ∈ ([some "b", some "a", none] : List (Option String)) ∧
      (∀ v, (some v) ∈ ([some "b", some "a", none] : List (Option String)) →
        ([some "b", some "a", none] : List (Option String)).reduceOption.count v ≤
          ([some "b", some "a", none] : List (Option String)).reduceOption.count m) ∧
      (∀ v, (some v) ∈ ([some "b", some "a", none] : List (Option String)) →
        ([some "b", some "a", none] : List (Option String)).reduceOption.count v =
          ([some "b", some "a", none] : List (Option String)).reduceOption.count m →
        strLeB m v = true) ∧
      fill_categorical [some "b", some "a", none] =
        ([some "b", some "a", none] : List (Option String)).map
          (fun c => some (c.getD m))) :=
  ⟨by decide, fill_categorical_spec.1 [some "b", some "a", none] "b" (by decide)⟩

/-- C4: whenever `handle_missing_values` returns, `numeric_fields_missing` is
the total number of absent entries over the columns classified numeric in the
input table (whether or not each gap was resolved), and
`categorical_fields_missing` likewise over the columns classified
categorical. -/
theorem handle_missing_values_counts (df out : Table) (rep : MissingReport)
    (h : handle_missing_values df = .ok (out, rep)) :
    rep.numeric_fields_missing =
      ((df.filter (fun e => decide (detect_data_types e.1 = "numeric"))).map
        (fun e => missingCount e.2)).sum ∧
    rep.categorical_fields_missing =
      ((df.filter (fun e => decide (detect_data_types e.1 = "categorical"))).map
        (fun e => missingCount e.2)).sum := by
  obtain ⟨-, h2, h3, -, -⟩ := hmvGo_spec df [] emptyMissingReport out rep h
  constructor
  · simpa [emptyMissingReport] using h2
  · simpa [emptyMissingReport] using h3

theorem handle_missing_values_counts_witness :
    handle_missing_values
        [("age", [some (Val.num 1), none, none]),
         ("name", [some (Val.str "x"), none, none]),
         ("uid", [none, none, none])] =
      .ok ([("age", [some (Val.num 1), some (Val.num 1), some (Val.num 1)]),
            ("name",
              [some (Val.str "x"), some (Val.str "x"), some (Val.str "x")]),
            ("uid", [none, none, none])],
           ⟨2, 2, ["age", "name", "uid"], []⟩) ∧
    ((⟨2, 2, ["age", "name", "uid"], []⟩ :
        MissingReport).numeric_fields_missing =
      ((([("age", [some (Val.num 1), none, none]),
          ("name", [some (Val.str "x"), none, none]),
          ("uid", [none, none, none])] : Table).filter
            (fun e => decide (detect_data_types e.1 = "numeric"))).map
        (fun e => missingCount e.2)).sum ∧
      (⟨2, 2, ["age", "name", "uid"], []⟩ :
        MissingReport).categorical_fields_missing =
      ((([("age", [some (Val.num 1), none, none]),
          ("name", [some (Val.str "x"), none, none]),
          ("uid", [none, none, none])] : Table).filter
            (fun e => decide (detect_data_types e.1 = "categorical"))).map
        (fun e => missingCount e.2)).sum) :=
  ⟨by rfl, handle_missing_values_counts _ _ _ (by rfl)⟩

/-- C5: an all-absent numeric column is returned unchanged with an empty record
list; and `handle_missing_values` has a defined, non-raising result on a
zero-row table, on a single-row table, and on any well-typed table (hence in
particular any such table containing an all-absent column). -/
theorem degenerate_inputs_no_failure :
    (∀ s : NumCol, (∀ x ∈ s, x = none) →
      interpolate_numeric s = .ok (s, [])) ∧
    (∀ df : Table, (∀ e ∈ df, e.2 = ([] : Column)) →
      handle_missing_values df = .ok (df, emptyMissingReport)) ∧
    (∀ df : Table, (∀ e ∈ df, e.2.length = 1) →
      ∃ out rep, handle_missing_values df = .ok (out, rep)) ∧
    (∀ df : Table, wellTyped df = true →
      ∃ out rep, handle_missing_values df = .ok (out, rep)) := by
  refine ⟨fun s h => interpolate_numeric_all_absent h, ?_, ?_, ?_⟩
  · intro df h
    have h0 : ∀ e ∈ df, missingCount e.2 = 0 := fun e he => by
      rw [h e he]
      rfl
    rw [handle_missing_values, hmvGo_no_missing df h0 [] emptyMissingReport,
      List.nil_append]
  · intro df h
    apply hmvGo_ok df
    intro e he
    rcases single_cell_cond e.2 (h e he) with h0 | h0
    · exact Or.inl h0
    · exact Or.inr (Or.inl h0)
  · intro df h
    apply hmvGo_ok df
    intro e he
    exact Or.inr (Or.inr (List.all_eq_true.mp h e he))

theorem degenerate_inputs_no_failure_witness :
    ((∀ x ∈ ([none, none] : NumCol), x = none) ∧
      interpolate_numeric [none, none] = .ok ([none, none], [])) ∧
    ((∀ e ∈ ([("age", [none]), ("uid", [some (Val.str "u")])] : Table),
        e.2.length = 1) ∧
      ∃ out rep, handle_missing_values
        [("age", [none]), ("uid", [some (Val.str "u")])] = .ok (out, rep)) ∧
    (wellTyped [("age", [none, some (Val.num 3)])] = true ∧
      ∃ out rep, handle_missing_values [("age", [none, some (Val.num 3)])] =
        .ok (out, rep)) :=
  ⟨⟨by decide, degenerate_inputs_no_failure.1 _ (by decide)⟩,
   ⟨by decide, degenerate_inputs_no_failure.2.2.1 _ (by decide)⟩,
   ⟨by rfl, degenerate_inputs_no_failure.2.2.2 _ (by rfl)⟩⟩

/-- C6: whenever a gap has both a nearest present left neighbour `L` and a
nearest present right neighbour `R`, `L < i < R` holds, the divisor `R - L` of
the position-ratio computation is non-zero, and `calculate_interpolation`
cannot raise. -/
theorem interpolation_divisor_nonzero (s : NumCol) (i L R : Nat)
    (hgap : s.getD i none = none)
    (hL : (beforeIdxs s i).getLast? = some L)
    (hR : (afterIdxs s i).head? = some R) :
    L < i ∧ i < R ∧ ((R : ℚ) - (L : ℚ)) ≠ 0 ∧
      ∀ msg, calculate_interpolation s i ≠ .error msg := by
  obtain ⟨hLi, -, -⟩ := beforeIdxs_getLast_inv hL
  obtain ⟨hiR, hRlen, ⟨vR, hvR⟩, -⟩ := afterIdxs_head_inv hR
  have hiR' : i < R := by
    rcases Nat.eq_or_lt_of_le hiR with rfl | hlt
    · rw [hgap] at hvR
      exact Option.noConfusion hvR
    · exact hlt
  refine ⟨hLi, hiR', ?_, ?_⟩
  · have hlt : (L : ℚ) < (R : ℚ) := by exact_mod_cast (by omega : L < R)
    exact sub_ne_zero_of_ne (ne_of_gt hlt)
  · intro msg hmsg
    rw [ci_eq_ok] at hmsg
    exact Except.noConfusion hmsg

theorem interpolation_divisor_nonzero_witness :
    (([some 10, none, some 30] : NumCol).getD 1 none = none ∧
      (beforeIdxs [some 10, none, some 30] 1).getLast? = some 0 ∧
      (afterIdxs [some 10, none, some 30] 1).head? = some 2) ∧
    ((0 : Nat) < 1 ∧ (1 : Nat) < 2 ∧
      (((2 : Nat) : ℚ) - ((0 : Nat) : ℚ)) ≠ 0 ∧
      ∀ msg, calculate_interpolation [some 10, none, some 30] 1 ≠
        .error msg) :=
  ⟨⟨rfl, by decide, by decide⟩,
    interpolation_divisor_nonzero [some 10, none, some 30] 1 0 2 rfl
      (by decide) (by decide)⟩

/-- C7: a column classified identifier that has absent entries is listed in
`columns_with_missing` but left entirely unchanged, and it contributes nothing
to the numeric or categorical missing counts (they equal the sums computed with
the column erased) nor to the interpolation details. -/
theorem identifier_columns_counted_not_repaired (df out : Table)
    (rep : MissingReport) (h : handle_missing_values df = .ok (out, rep))
    (i : Nat) (hi : i < df.length)
    (hid : detect_data_types (df.get ⟨i, hi⟩).1 = "id")
    (hmiss : 0 < missingCount (df.get ⟨i, hi⟩).2) :
    out[i]? = df[i]? ∧
    (df.get ⟨i, hi⟩).1 ∈ rep.columns_with_missing ∧
    rep.numeric_fields_missing =
      (((df.eraseIdx i).filter
        (fun e => decide (detect_data_types e.1 = "numeric"))).map
          (fun e => missingCount e.2)).sum ∧
    rep.categorical_fields_missing =
      (((df.eraseIdx i).filter
        (fun e => decide (detect_data_types e.1 = "categorical"))).map
          (fun e => missingCount e.2)).sum ∧
    ∀ d ∈ rep.interpolation_details, d.1 ≠ (df.get ⟨i, hi⟩).1 := by
  obtain ⟨h1, h2, h3, h4, -⟩ := hmvGo_spec df [] emptyMissingReport out rep h
  have h1' : out = df.map repairColumn := by simpa using h1
  refine ⟨?_, ?_, ?_, ?_, ?_⟩
  · rw [h1', List.getElem?_map, List.getElem?_eq_getElem hi]
    exact congrArg some (repairColumn_id hid)
  · rw [show rep.columns_with_missing =
      (df.filter (fun e => decide (0 < missingCount e.2))).map Prod.fst from
      by simpa [emptyMissingReport] using h4]
    exact List.mem_map.mpr ⟨df.get ⟨i, hi⟩,
      List.mem_filter.mpr ⟨List.get_mem df i hi, decide_eq_true hmiss⟩, rfl⟩
  · rw [show rep.numeric_fields_missing =
      ((df.filter (fun e => decide (detect_data_types e.1 = "numeric"))).map
        (fun e => missingCount e.2)).sum from
      by simpa [emptyMissingReport] using h2]
    apply filter_map_sum_eraseIdx _ _ df i hi
    left
    show decide (detect_data_types (df.get ⟨i, hi⟩).1 = "numeric") = false
    rw [hid]
    decide
  · rw [show rep.categorical_fields_missing =
      ((df.filter (fun e => decide (detect_data_types e.1 = "categorical"))).map
        (fun e => missingCount e.2)).sum from
      by simpa [emptyMissingReport] using h3]
    apply filter_map_sum_eraseIdx _ _ df i hi
    left
    show decide (detect_data_types (df.get ⟨i, hi⟩).1 = "categorical") = false
    rw [hid]
    decide
  · intro d hd hcontra
    obtain ⟨e, hedf, hde, hnum, -⟩ := interpolation_details_src h d hd
    have he1 : e.1 = (df.get ⟨i, hi⟩).1 := by rw [← hde, hcontra]
    rw [he1, hid] at hnum
    exact absurd hnum (by decide)

theorem identifier_columns_witness :
    (handle_missing_values
        [("age", [some (Val.num 1)]), ("uid", [none])] =
      .ok ([("age", [some (Val.num 1)]), ("uid", [none])],
           ⟨0, 0, ["uid"], []⟩) ∧
      detect_data_types "uid" = "id" ∧
      0 < missingCount [none]) ∧
    (([("age", [some (Val.num 1)]), ("uid", [none])] : Table)[1]? =
        ([("age", [some (Val.num 1)]), ("uid", [none])] : Table)[1]? ∧
      "uid" ∈ (⟨0, 0, ["uid"], []⟩ : MissingReport).columns_with_missing ∧
      (⟨0, 0, ["uid"], []⟩ : MissingReport).numeric_fields_missing =
        (((([("age", [some (Val.num 1)]), ("uid", [none])] :
            Table).eraseIdx 1).filter
          (fun e => decide (detect_data_types e.1 = "numeric"))).map
            (fun e => missingCount e.2)).sum ∧
      (⟨0, 0, ["uid"], []⟩ : MissingReport).categorical_fields_missing =
        (((([("age", [some (Val.num 1)]), ("uid", [none])] :
            Table).eraseIdx 1).filter
          (fun e => decide (detect_data_types e.1 = "categorical"))).map
            (fun e => missingCount e.2)).sum ∧
      ∀ d ∈ (⟨0, 0, ["uid"], []⟩ : MissingReport).interpolation_details,
        d.1 ≠ "uid") :=
  ⟨⟨by rfl, rfl, by decide⟩,
    identifier_columns_counted_not_repaired _ _ _ (by rfl) 1 (by decide)
      rfl (by decide)⟩

/-- C8: a column with no absent entries is left unchanged, its name is not added
to `columns_with_missing`, and it contributes nothing to the missing counts
(they equal the sums computed with the column erased) nor to the interpolation
details. -/
theorem no_missing_column_untouched (df out : Table) (rep : MissingReport)
    (h : handle_missing_values df = .ok (out, rep))
    (hnd : (df.map Prod.fst).Nodup)
    (i : Nat) (hi : i < df.length)
    (h0 : missingCount (df.get ⟨i, hi⟩).2 = 0) :
    out[i]? = df[i]? ∧
    (df.get ⟨i, hi⟩).1 ∉ rep.columns_with_missing ∧
    rep.numeric_fields_missing =
      (((df.eraseIdx i).filter
        (fun e => decide (detect_data_types e.1 = "numeric"))).map
          (fun e => missingCount e.2)).sum ∧
    rep.categorical_fields_missing =
      (((df.eraseIdx i).filter
        (fun e => decide (detect_data_types e.1 = "categorical"))).map
          (fun e => missingCount e.2)).sum ∧
    ∀ d ∈ rep.interpolation_details, d.1 ≠ (df.get ⟨i, hi⟩).1 := by
  obtain ⟨h1, h2, h3, h4, -⟩ := hmvGo_spec df [] emptyMissingReport out rep h
  have h1' : out = df.map repairColumn := by simpa using h1
  refine ⟨?_, ?_, ?_, ?_, ?_⟩
  · rw [h1', List.getElem?_map, List.getElem?_eq_getElem hi]
    exact congrArg some (repairColumn_no_missing h0)
  · rw [show rep.columns_with_missing =
      (df.filter (fun e => decide (0 < missingCount e.2))).map Prod.fst from
      by simpa [emptyMissingReport] using h4]
    exact notMem_map_fst_filter df i hi hnd h0
  · rw [show rep.numeric_fields_missing =
      ((df.filter (fun e => decide (detect_data_types e.1 = "numeric"))).map
        (fun e => missingCount e.2)).sum from
      by simpa [emptyMissingReport] using h2]
    apply filter_map_sum_eraseIdx _ _ df i hi
    right
    exact h0
  · rw [show rep.categorical_fields_missing =
      ((df.filter (fun e => decide (detect_data_types e.1 = "categorical"))).map
        (fun e => missingCount e.2)).sum from
      by simpa [emptyMissingReport] using h3]
    apply filter_map_sum_eraseIdx _ _ df i hi
    right
    exact h0
  · intro d hd hcontra
    obtain ⟨e, hedf, hde, -, hpos⟩ := interpolation_details_src h d hd
    have he1 : e.1 = (df.get ⟨i, hi⟩).1 := by rw [← hde, hcontra]
    apply notMem_map_fst_filter df i hi hnd h0
    exact List.mem_map.mpr ⟨e,
      List.mem_filter.mpr ⟨hedf, decide_eq_true hpos⟩, he1⟩

theorem no_missing_column_witness :
    (handle_missing_values
        [("age", [some (Val.num 1), none]), ("uid", [some (Val.str "u")])] =
      .ok ([("age", [some (Val.num 1), some (Val.num 1)]),
            ("uid", [some (Val.str "u")])],
           ⟨1, 0, ["age"], []⟩) ∧
      (([("age", [some (Val.num 1), none]),
         ("uid", [some (Val.str "u")])] : Table).map Prod.fst).Nodup ∧
      missingCount [some (Val.str "u")] = 0) ∧
    (([("age", [some (Val.num 1), some (Val.num 1)]),
        ("uid", [some (Val.str "u")])] : Table)[1]? =
      ([("age", [some (Val.num 1), none]),
        ("uid", [some (Val.str "u")])] : Table)[1]? ∧
      "uid" ∉ (⟨1, 0, ["age"], []⟩ : MissingReport).columns_with_missing ∧
      (⟨1, 0, ["age"], []⟩ : MissingReport).numeric_fields_missing =
        (((([("age", [some (Val.num 1), none]),
            ("uid", [some (Val.str "u")])] : Table).eraseIdx 1).filter
          (fun e => decide (detect_data_types e.1 = "numeric"))).map
            (fun e => missingCount e.2)).sum ∧
      (⟨1, 0, ["age"], []⟩ : MissingReport).categorical_fields_missing =
        (((([("age", [some (Val.num 1), none]),
            ("uid", [some (Val.str "u")])] : Table).eraseIdx 1).filter
          (fun e => decide (detect_data_types e.1 = "categorical"))).map
            (fun e => missingCount e.2)).sum ∧
      ∀ d ∈ (⟨1, 0, ["age"], []⟩ : MissingReport).interpolation_details,
        d.1 ≠ "uid") :=
  ⟨⟨by rfl, by decide, rfl⟩,
    no_missing_column_untouched _ _ _ (by rfl) (by decide) 1 (by decide) rfl⟩

/-- C9: the interpolation-details section renders the fixed
"No interpolation performed" line exactly when `interpolation_details` is
empty (and the full report then contains that line); when the list holds one
record, the rendered report contains the record's column name, missing index,
left value, right value and rounded interpolated value as literal
substrings. -/
theorem generate_report_spec :
    (∀ details : List (String × InterpRecord),
      format_interpolation_details details =
        "   No interpolation performed" ↔ details = []) ∧
    (∀ vr : ValidationReport, vr.interpolation_details = [] →
      substrOf "No interpolation performed" (generate_report vr)) ∧
    (∀ (vr : ValidationReport) (c : String) (rec : InterpRecord),
      vr.interpolation_details = [(c, rec)] →
      substrOf c (generate_report vr) ∧
      substrOf (Nat.repr rec.missing_index) (generate_report vr) ∧
      substrOf (fmtQ rec.left_value) (generate_report vr) ∧
      substrOf (fmtQ rec.right_value) (generate_report vr) ∧
      substrOf (fmtQ rec.interpolated_value) (generate_report vr)) :=
  ⟨format_interpolation_details_iff,
   fun _ h => generate_report_empty_line h,
   fun _ _ _ h => generate_report_single_substrings h⟩

theorem generate_report_spec_witness :
    ((⟨1, 2, 1, 0, ["age"], [("age", ⟨1, 10, 40, 0, 3, 20, "c"⟩)], 0, 0,
        true, true, 1, 2⟩ : ValidationReport).interpolation_details =
      [("age", ⟨1, 10, 40, 0, 3, 20, "c"⟩)] ∧
      (⟨1, 2, 1, 0, [], [], 0, 0, true, true, 1, 2⟩ :
        ValidationReport).interpolation_details = []) ∧
    format_interpolation_details [] = "   No interpolation performed" ∧
    substrOf "No interpolation performed"
      (generate_report ⟨1, 2, 1, 0, [], [], 0, 0, true, true, 1, 2⟩) ∧
    (substrOf "age" (generate_report ⟨1, 2, 1, 0, ["age"],
        [("age", ⟨1, 10, 40, 0, 3, 20, "c"⟩)], 0, 0, true, true, 1, 2⟩) ∧
      substrOf (Nat.repr (⟨1, 10, 40, 0, 3, 20, "c"⟩ :
          InterpRecord).missing_index)
        (generate_report ⟨1, 2, 1, 0, ["age"],
          [("age", ⟨1, 10, 40, 0, 3, 20, "c"⟩)], 0, 0, true, true, 1, 2⟩) ∧
      substrOf (fmtQ (⟨1, 10, 40, 0, 3, 20, "c"⟩ : InterpRecord).left_value)
        (generate_report ⟨1, 2, 1, 0, ["age"],
          [("age", ⟨1, 10, 40, 0, 3, 20, "c"⟩)], 0, 0, true, true, 1, 2⟩) ∧
      substrOf (fmtQ (⟨1, 10, 40, 0, 3, 20, "c"⟩ : InterpRecord).right_value)
        (generate_report ⟨1, 2, 1, 0, ["age"],
          [("age", ⟨1, 10, 40, 0, 3, 20, "c"⟩)], 0, 0, true, true, 1, 2⟩) ∧
      substrOf (fmtQ (⟨1, 10, 40, 0, 3, 20, "c"⟩ :
          InterpRecord).interpolated_value)
        (generate_report ⟨1, 2, 1, 0, ["age"],
          [("age", ⟨1, 10, 40, 0, 3, 20, "c"⟩)], 0, 0, true, true, 1, 2⟩)) :=
  ⟨⟨rfl, rfl⟩, (generate_report_spec.1 []).mpr rfl,
    generate_report_spec.2.1 _ rfl,
    generate_report_spec.2.2 _ "age" ⟨1, 10, 40, 0, 3, 20, "c"⟩ rfl⟩

/-- C10: boundary gaps are treated asymmetrically by the repaired column: a gap
with no present value before it stays absent, a gap with an earlier present
value but none after it is filled with the nearest earlier present value, and
in neither case is a record produced for that position. -/
theorem boundary_gap_policy (s : NumCol) (i : Nat) (hi : i < s.length)
    (hgap : s.getD i none = none) :
    ∃ repaired records, interpolate_numeric s = .ok (repaired, records) ∧
      (hasLeft s i = false → repaired.getD i none = none ∧
        ∀ r ∈ records, r.missing_index ≠ i) ∧
      (hasLeft s i = true → hasRight s i = false →
        ∃ L vL, L < i ∧ s.getD L none = some vL ∧
          (∀ j, L < j → j < i → s.getD j none = none) ∧
          repaired.getD i none = some vL ∧
          ∀ r ∈ records, r.missing_index ≠ i) := by
  refine ⟨_, _, interpolate_numeric_eq s, ?_, ?_⟩
  · intro hnl
    have hnil : beforeIdxs s i = [] := by
      by_contra hc
      have := hasLeft_eq_ne_nil.mpr hc
      rw [hnl] at this
      exact Bool.noConfusion this
    constructor
    · rw [pandasLinearFill_getD s hi, hgap, hnil, List.getLast?_nil]
    · intro r hr hidx
      have hig := recsOf_interiorGap hr
      rw [hidx, interiorGap, hnl] at hig
      simp at hig
  · intro hl hnr
    have hbne : beforeIdxs s i ≠ [] := hasLeft_eq_ne_nil.mp hl
    cases hLa : (beforeIdxs s i).getLast? with
    | none => exact absurd (List.getLast?_eq_none_iff.mp hLa) hbne
    | some L =>
      obtain ⟨hLi, ⟨vL, hvL⟩, hmax⟩ := beforeIdxs_getLast_inv hLa
      have hanil : afterIdxs s i = [] := by
        by_contra hc
        have := (hasRight_eq_ne_nil hgap).mpr hc
        rw [hnr] at this
        exact Bool.noConfusion this
      refine ⟨L, vL, hLi, hvL, hmax, ?_, ?_⟩
      · rw [pandasLinearFill_getD s hi, hgap, hLa, hanil, List.head?_nil]
        show some ((s.getD L none).getD 0) = some vL
        rw [hvL, Option.getD_some]
      · intro r hr hidx
        have hig := recsOf_interiorGap hr
        rw [hidx, interiorGap, hnr] at hig
        simp at hig

theorem boundary_gap_policy_witness :
    ((0 : Nat) < ([none, some 5] : NumCol).length ∧
      ([none, some 5] : NumCol).getD 0 none = none ∧
      (1 : Nat) < ([some 5, none] : NumCol).length ∧
      ([some 5, none] : NumCol).getD 1 none = none) ∧
    (∃ repaired records,
      interpolate_numeric [none, some 5] = .ok (repaired, records) ∧
      (hasLeft [none, some 5] 0 = false → repaired.getD 0 none = none ∧
        ∀ r ∈ records, r.missing_index ≠ 0) ∧
      (hasLeft [none, some 5] 0 = true → hasRight [none, some 5] 0 = false →
        ∃ L vL, L < 0 ∧ ([none, some 5] : NumCol).getD L none = some vL ∧
          (∀ j, L < j → j < 0 → ([none, some 5] : NumCol).getD j none = none) ∧
          repaired.getD 0 none = some vL ∧
          ∀ r ∈ records, r.missing_index ≠ 0)) ∧
    (∃ repaired records,
      interpolate_numeric [some 5, none] = .ok (repaired, records) ∧
      (hasLeft [some 5, none] 1 = false → repaired.getD 1 none = none ∧
        ∀ r ∈ records, r.missing_index ≠ 1) ∧
      (hasLeft [some 5, none] 1 = true → hasRight [some 5, none] 1 = false →
        ∃ L vL, L < 1 ∧ ([some 5, none] : NumCol).getD L none = some vL ∧
          (∀ j, L < j → j < 1 → ([some 5, none] : NumCol).getD j none = none) ∧
          repaired.getD 1 none = some vL ∧
          ∀ r ∈ records, r.missing_index ≠ 1)) :=
  ⟨⟨by decide, rfl, by decide, rfl⟩,
    boundary_gap_policy [none, some 5] 0 (by decide) rfl,
    boundary_gap_policy [some 5, none] 1 (by decide) rfl⟩
